import Mathlib

/-!
Shallow embedding of the deterministic bug-report categorization engine of
`src/pipeline/mapping_rules.py` (repository `bug_reports_classification`).

Python strings are modelled as `List Char` (Unicode scalar values); Python
floats are modelled exactly by `ℚ` (all constants in the engine are decimal
literals and the arithmetic is the same step for step); Python `None` is
`Option.none`; Python dicts that the engine iterates over are modelled as
insertion-ordered association lists, and Python sets built by successive
`add` calls are modelled as insertion-ordered duplicate-free lists.

Character-level predicates (`\w`, `\s`, `str.lower`, NFKC) are modelled
exactly on the ASCII-plus-currency-symbol alphabet over which every concrete
evaluation in this file ranges: NFKC normalization is the identity there and
`str.lower` is the ASCII case map.
-/

/-- Python `str` modelled as a list of Unicode scalar values. -/
abbrev Str := List Char

/-- Convert a Lean string literal to the model type. -/
def chars (s : String) : Str := s.data

/-- Map a list of Lean string literals to the model type. -/
def strs (l : List String) : List Str := l.map String.data

/-- Python regex `\w` (word character), exact on the ASCII range:
alphanumeric or underscore. -/
def pyIsWordChar (c : Char) : Bool := c.isAlphanum || c == '_'

/-- Python regex `\s` (whitespace). -/
def pyIsSpace (c : Char) : Bool :=
  c == ' ' || c == '\t' || c == '\n' || c == '\r' || c == '\x0b' || c == '\x0c'

/-- The currency symbols on the allow-list of `_normalize_text` (`₹$€`). -/
def isCurrencySym (c : Char) : Bool := c == '₹' || c == '$' || c == '€'

/-- Python `str.lower`, exact on the ASCII range (identity elsewhere). -/
def pyToLower (c : Char) : Char :=
  if 65 ≤ c.toNat ∧ c.toNat ≤ 90 then Char.ofNat (c.toNat + 32) else c

/-- Python `unicodedata.normalize('NFKC', s)`: the identity on the
ASCII-plus-currency alphabet over which this development evaluates. -/
def nfkc (s : Str) : Str := s

/-- Accumulator worker for `splitWs`; `acc` is the current word, reversed. -/
def splitWsGo : Str → Str → List Str
  | [], acc => if acc.isEmpty then [] else [acc.reverse]
  | c :: cs, acc =>
    if pyIsSpace c then
      if acc.isEmpty then splitWsGo cs [] else acc.reverse :: splitWsGo cs []
    else splitWsGo cs (c :: acc)

/-- Split a string into its maximal runs of non-whitespace characters
(the words), dropping all whitespace. -/
def splitWs (s : Str) : List Str := splitWsGo s []

/-- Python `sep.join(parts)`. -/
def joinSep (sep : Str) : List Str → Str
  | [] => []
  | [x] => x
  | x :: xs => x ++ sep ++ joinSep sep xs

/-- Python `re.sub(r"\s+", " ", s).strip()`: collapse whitespace runs to a
single space and trim the ends. -/
def collapseWs (s : Str) : Str := joinSep [' '] (splitWs s)

/-- Allow-list of `_normalize_text` from `mapping_rules.py` lines 75-87
(NFKC, lowercase, replace every character that is not a word character,
whitespace or an allow-listed currency symbol by a space, collapse
whitespace, strip): the characters that are kept. -/
def keepChar (c : Char) : Bool := pyIsWordChar c || pyIsSpace c || isCurrencySym c

/-- One character of the punctuation-removal substitution: characters
outside the allow-list become a space. -/
def keepOrSpace (c : Char) : Char := if keepChar c then c else ' '

/-- `_normalize_text` continued (see the doc comment above `keepChar`). -/
def _normalize_text (s : Str) : Str :=
  if s.isEmpty then []
  else
    let s1 := nfkc s
    let s2 := s1.map pyToLower
    let s3 := s2.map keepOrSpace
    collapseWs s3

/-- `_norm` from `mapping_rules.py` line 90. -/
def _norm (s : Str) : Str := _normalize_text s

/-- Whether `needle` is a prefix of `hay`. -/
def isPre : Str → Str → Bool
  | [], _ => true
  | _ :: _, [] => false
  | a :: as, b :: bs => a == b && isPre as bs

/-- Python substring containment `needle in hay`. -/
def containsSub : Str → Str → Bool
  | [], needle => needle.isEmpty
  | c :: t, needle => isPre needle (c :: t) || containsSub t needle

/-- `_match_any` from `mapping_rules.py` lines 94-96: normalize the text and
test the (raw, un-normalized) keywords for substring containment. -/
def _match_any (text : Str) (keywords : List Str) : Bool :=
  let t := _norm text
  keywords.any (fun k => containsSub t k)

example : _norm (chars "Feature request: add barcode scanner") =
    chars "feature request add barcode scanner" := by decide

example : _norm (chars "  A.b--C  ") = chars "a b c" := by decide

example : _match_any (chars "Screenshot_error.png") [chars "error"] = true := by
  decide

/-! ### A small regular-expression engine

The engine mirrors exactly the constructs used by the patterns in
`mapping_rules.py`: literals, single-character classes, alternation,
optional groups, bounded and unbounded repetition of character classes,
`\d`, `\s`, `\S`, and the word boundary `\b`. A match state is the pair of
the previously consumed character (for `\b`) and the remaining input. -/

/-- Regular-expression abstract syntax. -/
inductive RE where
  | eps
  | cls (p : Char → Bool)
  | lit (s : Str)
  | seq (a b : RE)
  | alt (a b : RE)
  | opt (a : RE)
  | starC (p : Char → Bool)
  | repC (p : Char → Bool) (lo : Nat) (hi : Option Nat)
  | wb

instance : Inhabited RE := ⟨RE.eps⟩

/-- Word-character test for the character to the left of a position. -/
def isWordOpt : Option Char → Bool
  | none => false
  | some c => pyIsWordChar c

/-- Word-character test for the character to the right of a position. -/
def isWordHead : Str → Bool
  | [] => false
  | c :: _ => pyIsWordChar c

/-- Match a literal string at the current position. -/
def litMatch : Str → Option Char → Str → List (Option Char × Str)
  | [], pv, cs => [(pv, cs)]
  | _ :: _, _, [] => []
  | a :: as, _, c :: cs => if a == c then litMatch as (some c) cs else []

/-- All states reachable by consuming zero or more `p`-characters. -/
def starMatches (p : Char → Bool) : Option Char → Str → List (Option Char × Str)
  | pv, [] => [(pv, [])]
  | pv, c :: cs => (pv, c :: cs) :: (if p c then starMatches p (some c) cs else [])

/-- Consume exactly `n` `p`-characters, if possible. -/
def repExact (p : Char → Bool) : Nat → Option Char → Str → Option (Option Char × Str)
  | 0, pv, cs => some (pv, cs)
  | _ + 1, _, [] => none
  | n + 1, _, c :: cs => if p c then repExact p n (some c) cs else none

/-- All states reachable by consuming at most `n` `p`-characters. -/
def repUpTo (p : Char → Bool) : Nat → Option Char → Str → List (Option Char × Str)
  | 0, pv, cs => [(pv, cs)]
  | _ + 1, pv, [] => [(pv, [])]
  | n + 1, pv, c :: cs => (pv, c :: cs) :: (if p c then repUpTo p n (some c) cs else [])

/-- All states reachable by matching `r` at the current position. -/
def matchHere : RE → Option Char → Str → List (Option Char × Str)
  | .eps, pv, cs => [(pv, cs)]
  | .cls _, _, [] => []
  | .cls p, _, c :: cs => if p c then [(some c, cs)] else []
  | .lit s, pv, cs => litMatch s pv cs
  | .seq a b, pv, cs => (matchHere a pv cs).flatMap (fun st => matchHere b st.1 st.2)
  | .alt a b, pv, cs => matchHere a pv cs ++ matchHere b pv cs
  | .opt a, pv, cs => (pv, cs) :: matchHere a pv cs
  | .starC p, pv, cs => starMatches p pv cs
  | .repC p lo hi, pv, cs =>
    match repExact p lo pv cs with
    | none => []
    | some st =>
      match hi with
      | none => starMatches p st.1 st.2
      | some h => repUpTo p (h - lo) st.1 st.2
  | .wb, pv, cs => if isWordOpt pv != isWordHead cs then [(pv, cs)] else []

/-- Scan of `re.search`: try to match at every position of the input. -/
def searchFrom (r : RE) : Option Char → Str → Bool
  | pv, [] => !(matchHere r pv []).isEmpty
  | pv, c :: cs => !(matchHere r pv (c :: cs)).isEmpty || searchFrom r (some c) cs

/-- Python `re.search(r, s) is not None`. -/
def reSearch (r : RE) (s : Str) : Bool := searchFrom r none s

/-- Sequence a list of regexes. -/
def RE.cat (rs : List RE) : RE := rs.foldr RE.seq RE.eps

/-- Alternation over a non-empty list of regexes (empty list never matches). -/
def RE.anyOf : List RE → RE
  | [] => RE.cls (fun _ => false)
  | [r] => r
  | r :: rest => RE.alt r (RE.anyOf rest)

/-- Literal regex from a Lean string literal. -/
def L (s : String) : RE := RE.lit s.data

/-- Python regex `\d` (exact on ASCII). -/
def reDigit : RE := RE.cls Char.isDigit

/-- Wrap a regex in word boundaries, as in the `\b(...)\b` patterns. -/
def wbWrap (r : RE) : RE := RE.cat [RE.wb, r, RE.wb]

/-- `_regex_any` from `mapping_rules.py` lines 99-101: normalize the text,
then test whether any of the patterns matches somewhere. -/
def _regex_any (text : Str) (patterns : List RE) : Bool :=
  let t := _norm text
  patterns.any (fun p => reSearch p t)

example : reSearch (wbWrap (L "net")) (chars "net issue") = true := by decide
example : reSearch (wbWrap (L "net")) (chars "internet") = false := by decide
example : reSearch (RE.cat [RE.wb, L "only ", reDigit, RE.starC Char.isDigit, RE.wb])
    (chars "got only 20 coins") = true := by decide

/-! ### The rule catalog

`config/rules.json` is read at module initialization; on any failure the
hard-coded fallback of `mapping_rules.py` lines 60-73 is used. The catalog
is modelled as a record that the engine functions take as an explicit
read-only parameter. Regex-map patterns that fail to compile are skipped by
the loader, so the model holds only compiled patterns, each paired with its
source text (used for the `re:` keyword tags). -/

/-- The loaded rule catalog: `_PRIORITY_ORDER`, `_KEYWORD_MAP`,
`_REGEX_MAP` and `_STRUCT_RE` of `mapping_rules.py`. -/
structure Catalog where
  priority_order : List Str
  keyword_map : List (Str × Str)
  regex_map : List (Str × RE × Str)
  struct_patterns : List (Str × RE)

/-- Character class matching a dash or a forward slash. -/
def reDashSlash : RE := RE.cls (fun c => c == '-' || c == '/')

/-- The built-in fallback catalog (`mapping_rules.py` lines 60-73): default
priority order, empty keyword and regex maps, and the four structured-token
patterns `date`, `currency`, `plain_amount` and `coins_word`. -/
def fallbackCatalog : Catalog where
  priority_order := strs ["functional_errors", "data_integrity_issues",
    "integration_failures", "connectivity_problems", "crash_stability",
    "performance_issues", "ui_ux_issues", "configuration_settings",
    "authentication_access", "compatibility_issues", "feature_requests"]
  keyword_map := []
  regex_map := []
  struct_patterns := [
    (chars "date", RE.cat [RE.wb, RE.repC Char.isDigit 4 (some 4), reDashSlash,
      RE.repC Char.isDigit 2 (some 2), reDashSlash,
      RE.repC Char.isDigit 2 (some 2), RE.wb]),
    (chars "currency", RE.cat [RE.anyOf [L "₹", L "$", L "€"],
      RE.opt (RE.cls pyIsSpace), RE.repC Char.isDigit 2 (some 6)]),
    (chars "plain_amount", RE.cat [RE.wb, RE.repC Char.isDigit 2 (some 6), RE.wb]),
    (chars "coins_word", RE.cat [RE.wb, L "coin", RE.opt (L "s"), RE.wb])]

/-- `_structured_tokens_present` from `mapping_rules.py` lines 118-125. -/
def _structured_tokens_present (cat : Catalog) (text : Str) : Bool :=
  let t := _norm text
  if t.isEmpty then false
  else cat.struct_patterns.any (fun np => reSearch np.2 t)

/-- Model of Python `set.add` on an insertion-ordered duplicate-free list. -/
def addSet (s : List Str) (x : Str) : List Str := if x ∈ s then s else s ++ [x]

/-- One keyword-map entry of `_keyword_matches`: on a substring hit of the
normalized keyword, record the keyword and (when non-empty) its category. -/
def kwStep (t : Str) (acc : List Str × List Str) (kv : Str × Str) :
    List Str × List Str :=
  let k := _norm kv.1
  if !k.isEmpty && containsSub t k then
    (addSet acc.1 kv.1, if !kv.2.isEmpty then addSet acc.2 kv.2 else acc.2)
  else acc

/-- One regex-map entry of `_keyword_matches`: on a search hit, record the
`re:`-tagged pattern and (when non-empty) its category. -/
def reStep (t : Str) (acc : List Str × List Str) (prc : Str × RE × Str) :
    List Str × List Str :=
  if reSearch prc.2.1 t then
    (addSet acc.1 (chars "re:" ++ prc.1),
     if !prc.2.2.isEmpty then addSet acc.2 prc.2.2 else acc.2)
  else acc

/-- `_keyword_matches` from `mapping_rules.py` lines 128-151: substring hits
of the keyword map and search hits of the regex map over the normalized
text, as `(matched_keywords, matched_categories)`. Regex hits are tagged
`re:` followed by the pattern source; empty category values are not added. -/
def _keyword_matches (cat : Catalog) (text : Str) : List Str × List Str :=
  let t := _norm text
  if t.isEmpty then ([], [])
  else cat.regex_map.foldl (reStep t) (cat.keyword_map.foldl (kwStep t) ([], []))

/-- Inner loop of `_levenshtein_distance`: one row update. `pd` is the
previous row's diagonal entry, `prest` the rest of the previous row,
`brest` the rest of `b`, and `left` the entry just written. -/
def levRowGo (ca : Char) : Nat → List Nat → Str → Nat → List Nat
  | pd, pj :: ps, cb :: bs, left =>
    let cost : Nat := if ca == cb then 0 else 1
    let v := min (pj + 1) (min (left + 1) (pd + cost))
    v :: levRowGo ca pj ps bs v
  | _, _, _, _ => []

/-- One outer-loop step of `_levenshtein_distance`: compute row `i` from
row `i - 1`. -/
def levRow (ca : Char) (b : Str) (prevRow : List Nat) (i : Nat) : List Nat :=
  i :: levRowGo ca (prevRow.headD 0) (prevRow.tailD []) b i

/-- `_levenshtein_distance` from `mapping_rules.py` lines 154-172. -/
def _levenshtein_distance (a b : Str) : Nat :=
  if a == b then 0
  else if a.isEmpty then b.length
  else if b.isEmpty then a.length
  else
    let init := List.range (b.length + 1)
    let fr := a.foldl (fun st ca => (levRow ca b st.1 (st.2 + 1), st.2 + 1)) (init, 0)
    fr.1.getLastD 0

/-- `_fuzzy_contains` from `mapping_rules.py` lines 175-187: some word of
the normalized text is within `max_dist` edits of the normalized token. -/
def _fuzzy_contains (text token : Str) (max_dist : Nat) : Bool :=
  let t := _norm text
  if t.isEmpty then false
  else
    let words := splitWs t
    let tok := _norm token
    if tok.isEmpty then false
    else words.any (fun w =>
      decide (((w.length : Int) - (tok.length : Int)).natAbs ≤ max_dist) &&
      decide (_levenshtein_distance w tok ≤ max_dist))

/-- Priority index of a category: Python `{c: i for i, c in enumerate(order)}`
followed by `.get(c, 10_000)` (the last occurrence wins on duplicates). -/
def orderKey (order : List Str) (c : Str) : Nat :=
  (order.foldl (fun st x => (st.1 + 1, if x == c then some st.1 else st.2))
    ((0 : Nat), (none : Option Nat))).2.getD 10000

/-- One step of the running minimum of `_resolve_by_priority`: replace the
best element so far only on a strictly smaller key (so the earliest minimal
element survives, as in Python's stable `sorted` taken at index 0). -/
def minStep (order : List Str) (best : Option Str) (c : Str) : Option Str :=
  match best with
  | none => some c
  | some b => if orderKey order c < orderKey order b then some c else some b

/-- `_resolve_by_priority` from `mapping_rules.py` lines 190-195: the
matched category with the least `orderKey`, earliest match winning ties. -/
def _resolve_by_priority (order : List Str) (categories : List Str) : Option Str :=
  if categories.isEmpty then none
  else categories.foldl (minStep order) none

example : _structured_tokens_present fallbackCatalog (chars "got 12345 total") = true := by
  decide
example : _structured_tokens_present fallbackCatalog (chars "abc def") = false := by
  decide
example : _levenshtein_distance (chars "coims") (chars "coins") = 1 := by decide
example : _fuzzy_contains (chars "lost my coinz today") (chars "coins") 1 = true := by
  decide
example : _resolve_by_priority fallbackCatalog.priority_order
    (strs ["ui_ux_issues", "functional_errors"]) = some (chars "functional_errors") := by
  decide

/-! ### Usability gate -/

/-- Lowercase ASCII letter (regex class of the letters a through z). -/
def isLowerAZ (c : Char) : Bool := decide (97 ≤ c.toNat) && decide (c.toNat ≤ 122)

/-- Date-like token of `_has_usable_content`: one or two digits, dash or
slash, one or two digits, dash or slash, two to four digits, in word
boundaries. -/
def reDateToken : RE := RE.cat [RE.wb, RE.repC Char.isDigit 1 (some 2),
  reDashSlash, RE.repC Char.isDigit 1 (some 2), reDashSlash,
  RE.repC Char.isDigit 2 (some 4), RE.wb]

/-- Time-like token of `_has_usable_content`: one or two digits, a colon,
two digits, optionally a colon and two more digits, in word boundaries. -/
def reTimeToken : RE := RE.cat [RE.wb, RE.repC Char.isDigit 1 (some 2), L ":",
  RE.repC Char.isDigit 2 (some 2),
  RE.opt (RE.cat [L ":", RE.repC Char.isDigit 2 (some 2)]), RE.wb]

/-- Currency token patterns of `_has_usable_content` line 236. -/
def currencyTokenREs : List RE := [wbWrap (RE.anyOf [L "rs", L "inr"]), L "₹",
  wbWrap (L "amount"), wbWrap (L "total"), wbWrap (L "balance")]

/-- Key-value pattern of `_has_usable_content` line 243: a lowercase letter,
two or more word-or-space characters, a colon, optional spaces, then at
least one non-space character. -/
def reKeyValue : RE := RE.cat [RE.wb, RE.cls isLowerAZ,
  RE.repC (fun c => isLowerAZ c || Char.isDigit c || c == '_' || pyIsSpace c) 2 none,
  L ":", RE.starC pyIsSpace, RE.cls (fun c => !pyIsSpace c),
  RE.starC (fun c => !pyIsSpace c)]

/-- Python `s.rsplit(sep, 1)[-1]`: the segment after the last separator. -/
def afterLastSep (sep : Char) (s : Str) : Str :=
  s.foldl (fun acc c => if c == sep then [] else acc ++ [c]) []

/-- Python `s.split(sep, 1)[0]`: the segment before the first separator. -/
def beforeFirstSep (sep : Char) (s : Str) : Str :=
  s.takeWhile (fun c => c != sep)

/-- Indicative header keywords of `_has_usable_content` lines 234-235. -/
def headerKeywords : List Str := strs ["date", "time", "invoice", "total",
  "amount", "balance", "settings", "login", "sign in", "signin", "password",
  "otp", "error", "failed", "network"]

/-- `_has_usable_content` from `mapping_rules.py` lines 198-264: whether the
record carries any usable signal (length, digits, dates, times, currency,
key-value fields, indicative or log-like filenames). -/
def _has_usable_content (comment : Str) (ocr_texts : Option (List Str))
    (filenames : Option (List Str)) (log_filename : Option Str) : Bool :=
  let t_comment := _norm comment
  let texts := (if t_comment.isEmpty then [] else [t_comment]) ++
    ((ocr_texts.getD []).filter (fun t => !t.isEmpty)).map _norm
  let combined := joinSep (chars " \n ") texts
  if 10 ≤ combined.length then true
  else if reSearch reDigit combined then true
  else if reSearch reDateToken combined then true
  else if reSearch reTimeToken combined then true
  else if headerKeywords.any (fun k => containsSub combined k) then true
  else if currencyTokenREs.any (fun p => reSearch p combined) then true
  else if reSearch reKeyValue combined then true
  else
    let candidate_filenames := (filenames.getD []) ++
      (match log_filename with
       | some lf => if lf.isEmpty then [] else [lf]
       | none => [])
    candidate_filenames.any (fun fn =>
      let f := _norm fn
      if f.isEmpty then false
      else
        (strs ["login", "signin", "error", "timeout", "network"]).any
          (fun k => containsSub f k) ||
        (reSearch reDateToken f || reSearch reDigit f) ||
        ((chars ".txt").isSuffixOf f || (chars ".log").isSuffixOf f))

/-- A bug report as consumed by the engine: a mapping with the optional
string fields the engine reads (`comment`, `comment_translated`,
`logFile`); absent fields are `none`. -/
structure Record where
  comment : Option Str := none
  comment_translated : Option Str := none
  logFile : Option Str := none

/-- Python `record.get('comment_translated') or record.get('comment', '')`:
the translated comment when present and non-empty, else the raw comment,
else the empty string. -/
def effectiveComment (r : Record) : Str :=
  match r.comment_translated with
  | some t => if t.isEmpty then r.comment.getD [] else t
  | none => r.comment.getD []

/-- `allow_unclear_label` from `mapping_rules.py` lines 267-298: the label
`unclear_insufficient_info` is acceptable only when there is no usable
content, no keyword or regex catalog hit, and no structured token. -/
def allow_unclear_label (cat : Catalog) (record : Record)
    (ocr_texts filenames : Option (List Str)) : Bool :=
  let comment := _norm (effectiveComment record)
  let log_url := _norm (record.logFile.getD [])
  let log_filename : Option Str :=
    if log_url.isEmpty then none
    else some (beforeFirstSep '?' (afterLastSep '/' log_url))
  let has_usable := _has_usable_content comment ocr_texts filenames log_filename
  if has_usable then false
  else
    let combined_texts := (if comment.isEmpty then [] else [comment]) ++
      ((ocr_texts.getD []).filter (fun t => !t.isEmpty)).map _norm
    let combined := joinSep (chars " \n ") combined_texts
    let km := _keyword_matches cat combined
    if !km.1.isEmpty || !km.2.isEmpty then false
    else if _structured_tokens_present cat combined then false
    else true

example : allow_unclear_label fallbackCatalog { comment := some [] }
    (some []) (some [chars "image.jpg"]) = true := by decide
example : allow_unclear_label fallbackCatalog { comment := some [] }
    (some [chars "12345"]) (some [chars "image.jpg"]) = false := by decide
example : _has_usable_content [] none (some [chars "login_screen.png"]) none = true := by
  decide

/-! ### Category identifiers returned by the hard-coded rules -/

/-- Category id `functional_errors`. -/
def catFunctional : Str := chars "functional_errors"
/-- Category id `ui_ux_issues`. -/
def catUiUx : Str := chars "ui_ux_issues"
/-- Category id `performance_issues`. -/
def catPerformance : Str := chars "performance_issues"
/-- Category id `connectivity_problems`. -/
def catConnectivity : Str := chars "connectivity_problems"
/-- Category id `authentication_access`. -/
def catAuth : Str := chars "authentication_access"
/-- Category id `data_integrity_issues`. -/
def catDataIntegrity : Str := chars "data_integrity_issues"
/-- Category id `crash_stability`. -/
def catCrash : Str := chars "crash_stability"
/-- Category id `integration_failures`. -/
def catIntegration : Str := chars "integration_failures"
/-- Category id `configuration_settings`. -/
def catConfig : Str := chars "configuration_settings"
/-- Category id `compatibility_issues`. -/
def catCompat : Str := chars "compatibility_issues"
/-- Category id `feature_requests`. -/
def catFeature : Str := chars "feature_requests"
/-- Category id `product_quality_issues`. -/
def catQuality : Str := chars "product_quality_issues"
/-- Category id `unclear_insufficient_info`. -/
def catUnclear : Str := chars "unclear_insufficient_info"

/-! ### Strong-rule extractors -/

/-- First data-integrity pattern (used for comments and for OCR):
sell or monetary words in word boundaries. -/
def reSellFirst : RE := wbWrap (RE.anyOf [L "sell amount", L "sell",
  RE.seq (L "coin") (RE.opt (L "s")), L "amount", L "balance", L "incent",
  L "incentive"])

/-- Comment data-integrity patterns (`mapping_rules.py` line 308). -/
def reCommentDataIntegrity : List RE := [reSellFirst,
  wbWrap (RE.anyOf [L "amount mismatch", L "wrong amount",
    RE.cat [L "only ", reDigit, RE.starC Char.isDigit]])]

/-- App-not-opening pattern (lines 312 and 400). -/
def reAppNotOpen : List RE := [wbWrap (RE.anyOf [L "app not open",
  L "app not opening", RE.seq (L "can\x27t open") (RE.opt (L " app")),
  RE.seq (L "cannot open") (RE.opt (L " app"))])]

/-- Performance lag pattern (lines 316 and 402). -/
def reLagSlow : List RE := [wbWrap (RE.anyOf [RE.seq (L "lag") (RE.opt (L " issue")),
  L "app lag", L "slow", L "sluggish", L "takes too long"])]

/-- First connectivity pattern (used for comments and for OCR). -/
def reConnFirst : RE := wbWrap (RE.anyOf [
  RE.seq (L "net") (RE.opt (RE.seq (RE.opt (L " ")) (L "issue"))), L "network",
  L "no internet", L "server down", L "timeout"])

/-- Comment connectivity patterns (lines 320-324), including the
transliterated and Devanagari alternatives. -/
def reCommentConnectivity : List RE := [reConnFirst,
  wbWrap (RE.anyOf [L "internet nahi", L "net problem", L "server band",
    L "network down", L "server nahi"]),
  wbWrap (RE.anyOf [RE.seq (L "नेट") (RE.opt (RE.seq (RE.opt (L " ")) (L "समस्या"))),
    L "सर्वर डाउन", L "नेटवर्क समस्या"])]

/-- Stop-notifications patterns (line 328). -/
def reStopNotif : List RE := [
  RE.cat [RE.wb, L "stop ", RE.opt (L "the "), L "notification", RE.opt (L "s"), RE.wb],
  RE.cat [RE.wb, L "disable notification", RE.opt (L "s"), RE.wb],
  RE.cat [RE.wb, L "turn off notification", RE.opt (L "s"), RE.wb]]

/-- Rate-card pattern (lines 332 and 406). -/
def reRateCard : List RE := [RE.cat [RE.wb, L "rate", RE.opt (L " "), L "card",
  RE.opt (RE.anyOf [L " not found", L " missing"]), RE.wb]]

/-- Product-quality pattern (lines 336 and 410). -/
def reQuality : List RE := [wbWrap (RE.anyOf [L "quality", L "bad quality",
  L "quality issue", L "damaged", L "damage", RE.seq (L "spoil") (RE.opt (L "ed")),
  L "waste", L "dented"])]

/-- Localized authentication patterns of the comment extractor (lines 350-352). -/
def reAuthLocalized : List RE := [
  wbWrap (RE.anyOf [L "otp nahi", L "otp नहीं", L "otp வரவில்லை", L "கடவுச்சொல்",
    L "पासवर्ड", L "लॉगिन", L "साइन इन"]),
  wbWrap (RE.anyOf [L "otp not received", L "otp failed", L "cannot login",
    L "cant login"])]

/-- Payment-brand pattern (lines 365 and 437). -/
def rePayBrands : RE := wbWrap (RE.anyOf [L "bhim", L "phonepe", L "gpay",
  L "paytm", L "tez"])

/-- Payment-failure pattern (lines 366 and 438). -/
def rePayFail : RE := wbWrap (RE.anyOf [RE.seq (L "upi fail") (RE.opt (L "ed")),
  RE.seq (L "payment fail") (RE.opt (L "ed")), L "payment pending",
  L "gateway error"])

/-- Hindi payment pattern (line 367). -/
def rePayHindi : RE := wbWrap (RE.anyOf [L "यूपीआई", L "भुगतान", L "पेमेंट"])

/-- Localized integration patterns of the comment extractor (lines 364-368). -/
def reIntegrationLocalized : List RE := [rePayBrands, rePayFail, rePayHindi]

/-- Localized authentication pattern of the OCR extractor (line 419). -/
def reOcrAuthLocalized : List RE := [wbWrap (RE.anyOf [L "otp nahi", L "otp नहीं",
  L "otp வரவில்லை", L "पासवर्ड", L "लॉगिन", L "साइन इन"])]

/-- `categorize_from_comment` from `mapping_rules.py` lines 301-391: the
order-sensitive comment rules, first match wins. -/
def categorize_from_comment (comment : Str) : Option Str :=
  let t := _norm comment
  if t.isEmpty then none
  else if _regex_any t reCommentDataIntegrity then some catDataIntegrity
  else if _regex_any t reAppNotOpen then some catFunctional
  else if _regex_any t reLagSlow then some catPerformance
  else if _regex_any t reCommentConnectivity then some catConnectivity
  else if _regex_any t reStopNotif then some catFeature
  else if _regex_any t reRateCard then some catFunctional
  else if _regex_any t reQuality then some catQuality
  else if _match_any t (strs ["feature request", "feature", "would be great",
    "please add", "enhancement"]) then some catFeature
  else if _match_any t (strs ["unable to connect", "no internet",
    "network error", "api failed", "server error", "timeout"]) then
    some catConnectivity
  else if _match_any t (strs ["login", "sign in", "authentication", "password",
      "otp", "permission denied", "access denied", "session", "pin", "mpin",
      "forgot password"]) || _regex_any t reAuthLocalized then some catAuth
  else if _match_any t (strs ["slow", "lag", "freeze", "freezes", "hanging",
    "loading forever", "takes too long", "sluggish"]) then some catPerformance
  else if _match_any t (strs ["crash", "crashes", "force close",
    "stopped working", "app closed unexpectedly"]) then some catCrash
  else if _match_any t (strs ["printer", "bluetooth", "weighing scale",
      "payment gateway", "google", "firebase", "upi", "razorpay", "gateway",
      "transaction failed"]) || _regex_any t reIntegrationLocalized then
    some catIntegration
  else if _match_any t (strs ["settings", "configuration", "preference",
    "does not save setting", "default value wrong"]) then some catConfig
  else if _match_any t (strs ["wrong total", "incorrect", "mismatch",
    "duplicate", "missing data", "data lost", "not saved"]) then
    some catDataIntegrity
  else if _match_any t (strs ["ui", "ux", "alignment", "overlap", "cut off",
    "hard to read", "too small", "button not visible"]) then some catUiUx
  else if _match_any t (strs ["does not work", "not working", "cannot",
    "can\x27t", "fails", "not possible", "broken", "stuck action"]) then
    some catFunctional
  else if _match_any t (strs ["only on my phone", "android 14", "ios",
    "tablet", "resolution", "screen size"]) then some catCompat
  else none

/-- `categorize_from_ocr` from `mapping_rules.py` lines 394-446. -/
def categorize_from_ocr (ocr_text : Str) : Option Str :=
  let t := _norm ocr_text
  if t.isEmpty then none
  else if _regex_any t reAppNotOpen then some catFunctional
  else if _regex_any t reLagSlow then some catPerformance
  else if _regex_any t [reConnFirst] then some catConnectivity
  else if _regex_any t reRateCard then some catFunctional
  else if _regex_any t [reSellFirst] then some catDataIntegrity
  else if _regex_any t reQuality then some catQuality
  else if _match_any t (strs ["error", "exception", "fatal", "stack trace"]) then
    some catFunctional
  else if _match_any t (strs ["sign in", "login", "password", "otp", "pin",
      "mpin"]) || _regex_any t reOcrAuthLocalized then some catAuth
  else if _match_any t (strs ["unable to connect", "no internet",
    "network error", "api request failed", "timeout"]) then some catConnectivity
  else if _match_any t (strs ["loading", "please wait", "processing"]) &&
      !(_match_any t (strs ["success", "completed"])) then some catPerformance
  else if _match_any t (strs ["settings", "preferences", "configuration"]) then
    some catConfig
  else if _match_any t (strs ["payment", "transaction", "gateway", "upi",
      "printer", "bluetooth"]) || _regex_any t [rePayBrands, rePayFail] then
    some catIntegration
  else if _match_any t (strs ["total", "balance", "amount"]) &&
      _match_any t (strs ["wrong", "mismatch", "not matching"]) then
    some catDataIntegrity
  else none

/-- `categorize_from_filename` from `mapping_rules.py` lines 449-468. The
`.txt` and `.log` suffix test is applied, as in the source, to the
normalized filename. -/
def categorize_from_filename (filename : Str) : Option Str :=
  let f := _norm filename
  if f.isEmpty then none
  else if (chars ".txt").isSuffixOf f || (chars ".log").isSuffixOf f then none
  else if containsSub f (chars "screenshot") && containsSub f (chars "error") then
    some catFunctional
  else if containsSub f (chars "login") || containsSub f (chars "signin") then
    some catAuth
  else if containsSub f (chars "timeout") || containsSub f (chars "network") then
    some catConnectivity
  else none

/-- `post_adjustment` from `mapping_rules.py` lines 471-483. -/
def post_adjustment (model_pred : Option Str)
    (explicit_crash explicit_connectivity explicit_auth : Bool) : Option Str :=
  if explicit_crash then some catCrash
  else if explicit_connectivity then some catConnectivity
  else if explicit_auth ∧ (model_pred = none ∨ model_pred = some catUiUx ∨
      model_pred = some catUnclear) then some catAuth
  else model_pred

/-- Python `min` on two rationals (first argument wins ties). -/
def pyMin (a b : ℚ) : ℚ := if a ≤ b then a else b

/-- Python `max` on two rationals (first argument wins ties). -/
def pyMax (a b : ℚ) : ℚ := if b ≤ a then a else b

/-- Exact rational value of a decimal constant, written `q num den`
(`mkRat` keeps every term kernel-computable, unlike `OfScientific`). -/
def q (num : Int) (den : Nat) : ℚ := mkRat num den

/-- Rational addition in a form the kernel evaluates (`Rat.add` itself is
irreducible); equal to `+` by `qAdd_eq`. -/
def qAdd (a b : ℚ) : ℚ := mkRat (a.num * b.den + b.num * a.den) (a.den * b.den)

/-- Rational subtraction in a kernel-evaluable form; equal to `-` by
`qSub_eq`. -/
def qSub (a b : ℚ) : ℚ := mkRat (a.num * b.den - b.num * a.den) (a.den * b.den)

/-- Rational multiplication in a kernel-evaluable form; equal to `*` by
`qMul_eq`. -/
def qMul (a b : ℚ) : ℚ := mkRat (a.num * b.num) (a.den * b.den)

lemma qAdd_eq (a b : ℚ) : qAdd a b = a + b := (Rat.add_def' a b).symm

lemma qSub_eq (a b : ℚ) : qSub a b = a - b := (Rat.sub_def' a b).symm

lemma qMul_eq (a b : ℚ) : qMul a b = a * b := by
  rw [qMul, Rat.mul_def, Rat.normalize_eq_mkRat]

/-- `_compute_confidence` from `mapping_rules.py` lines 486-498, in exact
rational arithmetic: the decimal constants 0.3, 0.7, 0.2, 0.05, 0.85, 0.99
appear as `q 3 10`, `q 7 10`, `q 1 5`, `q 1 20`, `q 17 20`, `q 99 100`. -/
def _compute_confidence (matched_keywords : Nat)
    (structured_present strong_rule model_used : Bool)
    (final_category : Str) : ℚ :=
  let conf : ℚ := q 3 10
  let conf := if strong_rule then q 7 10 else conf
  let conf := if matched_keywords ≠ 0 then
    pyMax conf (qAdd (q 7 10) (pyMin (q 1 5)
      (qMul (q 1 20) (qSub ((matched_keywords : ℚ)) 1))))
    else conf
  let conf := if structured_present ∧ conf < q 17 20 then qAdd conf (q 1 20) else conf
  let conf := if model_used ∧ conf < q 7 10 then q 7 10 else conf
  pyMax 0 (pyMin (q 99 100) conf)

example : categorize_from_comment (chars "Feature request: please add dark mode") =
    some catFeature := by decide
example : categorize_from_comment (chars "Wrong total amount and duplicate entries") =
    some catDataIntegrity := by decide
example : categorize_from_comment (chars "Only on Android 14 with tablet resolution") =
    some catCompat := by decide
example : categorize_from_ocr (chars "Loading... please wait") =
    some catPerformance := by decide
example : categorize_from_filename (chars "Screenshot_timeout_network.jpg") =
    some catConnectivity := by decide
example : _compute_confidence 0 false true false catFeature = q 7 10 := by decide
example : _compute_confidence 3 true false false catFeature = q 17 20 := by decide

/-! ### Orchestrator

The Python function `categorize_record_with_meta` is one long procedure with
early returns. It is embedded as a main definition for stages 1 to the
weak-generic branch, a `weakTail` definition for the remaining weak-signal
rules (source lines 617-680), and a `finalStages` definition for source
lines 682-699 (model preference, strict unclear gate, fallbacks); the two
tail definitions receive the locals that are still live at those points
(`comment`, `matched_kws`, `strong_rule_applied`, `combined`,
`generic_hits`). -/

/-- Python truthiness of an optional string. -/
def truthyStr : Option Str → Bool
  | none => false
  | some s => !s.isEmpty

/-- The `" \n "` separator used to join normalized texts. -/
def sepNL : Str := chars " \n "

/-- The combined comment-plus-OCR text of lines 545-551 (recomputed
identically at lines 575-583): the normalized comment when non-empty,
followed by the normalized non-empty OCR texts, joined by `" \n "`. -/
def combinedOf (comment : Str) (ocr_texts : Option (List Str)) : Str :=
  joinSep sepNL ((if comment.isEmpty then [] else [comment]) ++
    ((ocr_texts.getD []).filter (fun t => !t.isEmpty)).map _norm)

/-- Weak connectivity keyword set (line 617). -/
def weakConnectivityTokens : List Str := strs ["no internet", "network",
  "server", "timeout", "api", "internet nahi", "server down", "net problem"]

/-- Weak authentication keyword set (line 625). -/
def weakAuthTokens : List Str := strs ["otp", "signin", "sign in", "login",
  "password", "pin", "mpin", "forgot password"]

/-- Weak integration keyword set (lines 633 and 673). -/
def weakIntegrationTokens : List Str := strs ["printer", "bluetooth",
  "gateway", "upi", "payment", "transaction", "scan", "weighing scale",
  "barcode"]

/-- UI token set of the loose UI rule and the filename rule (line 641). -/
def uiTokens : List Str := strs ["button", "screen", "page", "icon", "font",
  "text", "label", "alignment", "visible", "display", "scroll", "cut off",
  "overlap"]

/-- Generic error tokens (line 597); matched raw against the combined text. -/
def genericErrorTokens : List Str := strs ["error", "fail", "failed",
  "not working", "does not work", "unable", "stuck", "cannot", "can\x27t"]

/-- Mismatch wording (line 590). -/
def mismatchWords : List Str := strs ["wrong", "mismatch", "not matching",
  "less", "more", "only", "difference"]

/-- Performance tokens (line 649). -/
def perfTokens : List Str := strs ["slow", "lag", "loading", "hang",
  "hanging", "sluggish", "takes too long", "please wait", "processing"]

/-- Currency patterns of the weak data-integrity rule (line 587). -/
def currencyWeakREs : List RE := [wbWrap (RE.anyOf [L "rs", L "inr", L "₹"]),
  wbWrap (L "amount"), wbWrap (L "total"), wbWrap (L "balance"),
  wbWrap (RE.seq (L "coin") (RE.opt (L "s")))]

/-- Source lines 682-699: prefer a non-unclear model prediction, then the
strict unclear gate, then the model-prediction fallback, then the default
`functional_errors`. -/
def finalStages (cat : Catalog) (record : Record)
    (ocr_texts filenames : Option (List Str)) (model_pred : Option Str)
    (comment : Str) (matched_kws : List Str) (strong_rule_applied : Bool) :
    Str × ℚ × String :=
  if truthyStr model_pred ∧ model_pred.getD [] ≠ catUnclear then
    (model_pred.getD [], _compute_confidence matched_kws.length
      (_structured_tokens_present cat comment) strong_rule_applied true
      (model_pred.getD []), "model_pred")
  else if allow_unclear_label cat record ocr_texts filenames then
    (catUnclear, q 3 10, "unclear_gate")
  else if truthyStr model_pred then
    (model_pred.getD [], _compute_confidence matched_kws.length
      (_structured_tokens_present cat comment) strong_rule_applied true
      (model_pred.getD []), "model_pred_fallback")
  else
    (catFunctional, _compute_confidence matched_kws.length
      (_structured_tokens_present cat comment) strong_rule_applied false
      catFunctional, "default_fallback")

/-- Source lines 617-680: connectivity, auth, integration, loose UI,
performance, fuzzy and filename-driven weak signals, falling through to
`finalStages`. -/
def weakTail (cat : Catalog) (record : Record)
    (ocr_texts filenames : Option (List Str)) (model_pred : Option Str)
    (comment : Str) (matched_kws : List Str) (strong_rule_applied : Bool)
    (combined : Str) (generic_hits : List Str) : Str × ℚ × String :=
  let has_weak_conn := _match_any combined weakConnectivityTokens
  if has_weak_conn then
    (catConnectivity, _compute_confidence matched_kws.length
      (_structured_tokens_present cat combined) strong_rule_applied false
      catConnectivity, "weak_signal_connectivity")
  else
    let has_weak_auth := _match_any combined weakAuthTokens
    if has_weak_auth then
      (catAuth, _compute_confidence matched_kws.length
        (_structured_tokens_present cat combined) strong_rule_applied false
        catAuth, "weak_signal_auth")
    else
      let has_weak_integration := _match_any combined weakIntegrationTokens
      if has_weak_integration then
        (catIntegration, _compute_confidence matched_kws.length
          (_structured_tokens_present cat combined) strong_rule_applied false
          catIntegration, "weak_signal_integration")
      else
        let ui_hits := uiTokens.filter (fun tok => containsSub combined tok)
        if 1 ≤ ui_hits.length ∧
            ¬((has_weak_auth || has_weak_conn || has_weak_integration) = true) ∧
            generic_hits.length = 0 then
          (catUiUx, _compute_confidence matched_kws.length
            (_structured_tokens_present cat combined) strong_rule_applied false
            catUiUx, "weak_signal_uiux_loose")
        else if _match_any combined perfTokens ∧
            ¬(_match_any combined (strs ["success", "completed", "done"]) = true) then
          (catPerformance, _compute_confidence matched_kws.length
            (_structured_tokens_present cat combined) strong_rule_applied false
            catPerformance, "weak_signal_performance")
        else if _fuzzy_contains combined (chars "coins") 1 then
          (catDataIntegrity, _compute_confidence (matched_kws.length + 1) true
            strong_rule_applied false catDataIntegrity, "fuzzy_data_integrity")
        else if _fuzzy_contains combined (chars "quality") 1 ||
            _fuzzy_contains combined (chars "damage") 1 then
          (catQuality, _compute_confidence (matched_kws.length + 1)
            (_structured_tokens_present cat combined) strong_rule_applied false
            catQuality, "fuzzy_quality")
        else
          let fns := filenames.getD []
          if fns.isEmpty then
            finalStages cat record ocr_texts filenames model_pred comment
              matched_kws strong_rule_applied
          else
            let fn_join := joinSep sepNL
              ((fns.filter (fun fn => !fn.isEmpty)).map _norm)
            if fn_join.isEmpty then
              finalStages cat record ocr_texts filenames model_pred comment
                matched_kws strong_rule_applied
            else if uiTokens.any (fun tok => containsSub fn_join tok) then
              (catUiUx, _compute_confidence 0
                (_structured_tokens_present cat fn_join) strong_rule_applied
                false catUiUx, "weak_signal_from_filename_ui")
            else if weakIntegrationTokens.any (fun tok => containsSub fn_join tok) then
              (catIntegration, _compute_confidence 0
                (_structured_tokens_present cat fn_join) strong_rule_applied
                false catIntegration, "weak_signal_from_filename_integration")
            else if weakConnectivityTokens.any (fun tok => containsSub fn_join tok) then
              (catConnectivity, _compute_confidence 0
                (_structured_tokens_present cat fn_join) strong_rule_applied
                false catConnectivity, "weak_signal_from_filename_connectivity")
            else
              finalStages cat record ocr_texts filenames model_pred comment
                matched_kws strong_rule_applied

/-- `categorize_record_with_meta` from `mapping_rules.py` lines 501-699:
the full cascading decision procedure, returning
`(category, confidence, reason)`. -/
def categorize_record_with_meta (cat : Catalog) (record : Record)
    (ocr_texts filenames : Option (List Str)) (model_pred : Option Str) :
    Str × ℚ × String :=
  let comment := _norm (effectiveComment record)
  let strong_rule_applied := false
  match categorize_from_comment comment with
  | some c => (c, _compute_confidence 0 false true false c, "strong_comment_regex")
  | none =>
    match (ocr_texts.getD []).findSome? categorize_from_ocr with
    | some c => (c, _compute_confidence 0 false true false c, "strong_ocr_regex")
    | none =>
      match (filenames.getD []).findSome? categorize_from_filename with
      | some c => (c, _compute_confidence 0 false true false c, "filename_rule")
      | none =>
        let combined := combinedOf comment ocr_texts
        let km := _keyword_matches cat combined
        let matched_kws := km.1
        let matched_cats := km.2
        if ¬(matched_cats.isEmpty = true) then
          let resolved := _resolve_by_priority cat.priority_order matched_cats
          let reason : String := if matched_kws.any (fun k => isPre (chars "re:") k)
            then "regex_map" else "keyword_map"
          let final := match resolved with
            | some r => if r.isEmpty then catFunctional else r
            | none => catFunctional
          (final, _compute_confidence matched_kws.length
            (_structured_tokens_present cat combined) strong_rule_applied false
            final, reason)
        else
          let explicit_crash := _match_any comment
            (strs ["crash", "force close", "stopped working"])
          let explicit_connectivity := _match_any comment
            (strs ["unable to connect", "network error", "api failed", "timeout"])
          let explicit_auth := _match_any comment
            (strs ["login", "sign in", "password", "otp"])
          let adjusted := post_adjustment model_pred explicit_crash
            explicit_connectivity explicit_auth
          if truthyStr adjusted ∧ adjusted.getD [] ≠ catUnclear then
            (adjusted.getD [], _compute_confidence 0
              (_structured_tokens_present cat comment) strong_rule_applied
              model_pred.isSome (adjusted.getD []),
             if explicit_crash || explicit_connectivity || explicit_auth then
               "post_adjustment" else "model_pred")
          else
            let combined2 := combinedOf comment ocr_texts
            if combined2.isEmpty then
              finalStages cat record ocr_texts filenames model_pred comment
                matched_kws strong_rule_applied
            else
              let number_present := reSearch reDigit combined2
              let currency_present := currencyWeakREs.any
                (fun p => reSearch p combined2)
              if (number_present && currency_present) ||
                  _match_any combined2 mismatchWords then
                (catDataIntegrity, _compute_confidence matched_kws.length true
                  strong_rule_applied false catDataIntegrity,
                 "weak_signal_data_integrity")
              else
                let generic_hits := genericErrorTokens.filter
                  (fun tok => containsSub combined2 tok)
                let has_structured := _structured_tokens_present cat combined2
                if 2 ≤ generic_hits.length ∨
                    (1 ≤ generic_hits.length ∧ has_structured = true) then
                  (catFunctional, _compute_confidence matched_kws.length
                    has_structured strong_rule_applied false catFunctional,
                   "weak_signal_generic_strong")
                else if generic_hits.length = 1 ∧ has_structured = false ∧
                    truthyStr model_pred = true ∧ model_pred.getD [] ≠ catUnclear then
                  (model_pred.getD [], _compute_confidence matched_kws.length
                    has_structured strong_rule_applied true (model_pred.getD []),
                   "model_pred_weak_generic")
                else if generic_hits.length = 1 ∧ has_structured = false ∧
                    ¬(truthyStr model_pred = true ∧ model_pred.getD [] ≠ catUnclear) ∧
                    _match_any combined2 (strs ["button", "screen", "page",
                      "icon", "text", "label", "alignment", "visible",
                      "display"]) = true then
                  (catUiUx, _compute_confidence matched_kws.length
                    has_structured strong_rule_applied false catUiUx,
                   "weak_signal_uiux_from_generic")
                else
                  weakTail cat record ocr_texts filenames model_pred comment
                    matched_kws strong_rule_applied combined2 generic_hits

/-- `categorize_record` from `mapping_rules.py` lines 702-705: the
category-only wrapper. -/
def categorize_record (cat : Catalog) (record : Record)
    (ocr_texts filenames : Option (List Str)) (model_pred : Option Str) : Str :=
  (categorize_record_with_meta cat record ocr_texts filenames model_pred).1

example : categorize_record_with_meta fallbackCatalog
    { comment := some (chars "Feature request: add barcode scanner") }
    (some [chars "Loading"]) (some [chars "login.png"]) none =
    (catFeature, q 7 10, "strong_comment_regex") := by decide

example : categorize_record_with_meta fallbackCatalog { comment := some [] }
    (some [chars "Unable to connect"]) (some []) none =
    (catConnectivity, q 7 10, "strong_ocr_regex") := by decide

example : categorize_record_with_meta fallbackCatalog { comment := some [] }
    (some []) (some [chars "image.jpg"]) none =
    (catUnclear, q 3 10, "unclear_gate") := by decide

example : categorize_record fallbackCatalog { comment := some [] }
    (some [chars "12345"]) (some [chars "image.jpg"]) none = catFunctional := by
  decide

example : categorize_record fallbackCatalog { comment := some [] }
    (some []) (some [chars "login_screen.png"]) none = catAuth := by decide

/-! ### Arithmetic helper lemmas -/

lemma q_def (num : Int) (den : Nat) : q num den = (num : ℚ) / (den : ℚ) := by
  rw [q, Rat.mkRat_eq_divInt, Rat.divInt_eq_div]
  norm_cast

lemma pyMax_eq (a b : ℚ) : pyMax a b = max a b := by
  unfold pyMax
  rcases le_or_lt b a with h | h
  · rw [if_pos h, max_eq_left h]
  · rw [if_neg (not_le.mpr h), max_eq_right h.le]

lemma pyMin_eq (a b : ℚ) : pyMin a b = min a b := by
  unfold pyMin
  rcases le_or_lt a b with h | h
  · rw [if_pos h, min_eq_left h]
  · rw [if_neg (not_le.mpr h), min_eq_right h.le]

lemma clamp_bounds (u c : ℚ) (hu : 0 ≤ u) :
    0 ≤ pyMax 0 (pyMin u c) ∧ pyMax 0 (pyMin u c) ≤ u := by
  unfold pyMax pyMin
  constructor <;> repeat' split
  all_goals linarith

/-- Every value of the confidence scorer lies in `[0, 0.99]`. -/
lemma conf_bounds (n : Nat) (sp sr mu : Bool) (c : Str) :
    0 ≤ _compute_confidence n sp sr mu c ∧
    _compute_confidence n sp sr mu c ≤ q 99 100 := by
  unfold _compute_confidence
  exact clamp_bounds _ _ (by rw [q_def]; norm_num)

/-- A strong-rule stage always scores exactly `0.7`. -/
lemma conf_strong (c : Str) : _compute_confidence 0 false true false c = q 7 10 := rfl

/-- The confidence procedure exactly as the specification words it
(§4.6): baseline 0.3; 0.7 on a strong rule; raised with the keyword count,
capped at 0.9; +0.05 for structured tokens below 0.85; at least 0.7 when a
model prediction was used; clamped to `[0.0, 0.99]`. -/
def confidenceSpec (n : Nat) (sp sr mu : Bool) : ℚ :=
  let conf : ℚ := 0.3
  let conf := if sr then 0.7 else conf
  let conf := if 1 ≤ n then max conf (0.7 + min 0.2 (0.05 * ((n : ℚ) - 1)))
    else conf
  let conf := if sp ∧ conf < 0.85 then conf + 0.05 else conf
  let conf := if mu ∧ conf < 0.7 then (0.7 : ℚ) else conf
  max 0 (min 0.99 conf)

lemma q_3_10 : q 3 10 = (0.3 : ℚ) := by rw [q_def]; norm_num
lemma q_7_10 : q 7 10 = (0.7 : ℚ) := by rw [q_def]; norm_num
lemma q_1_5 : q 1 5 = (0.2 : ℚ) := by rw [q_def]; norm_num
lemma q_1_20 : q 1 20 = (0.05 : ℚ) := by rw [q_def]; norm_num
lemma q_17_20 : q 17 20 = (0.85 : ℚ) := by rw [q_def]; norm_num
lemma q_99_100 : q 99 100 = (0.99 : ℚ) := by rw [q_def]; norm_num

/-- C5. The implemented `_compute_confidence` agrees, for every keyword
count, flag combination and category, with the confidence procedure stated
in the specification: start at 0.3; set to 0.7 on a strong rule; with `n`
keyword matches take the max with `0.7 + min(0.2, 0.05 * (n - 1))`; add
0.05 when structured tokens are present and the value is below 0.85; raise
to 0.7 when a model prediction was used and the value is below 0.7; clamp
to `[0.0, 0.99]`. -/
theorem compute_confidence_matches_spec (n : Nat) (sp sr mu : Bool) (c : Str) :
    _compute_confidence n sp sr mu c = confidenceSpec n sp sr mu := by
  unfold _compute_confidence confidenceSpec
  simp only [qAdd_eq, qMul_eq, qSub_eq, pyMax_eq, pyMin_eq, q_3_10, q_7_10,
    q_1_5, q_1_20, q_17_20, q_99_100, Nat.one_le_iff_ne_zero]

/-! ### Normalizer lemmas (claim C8) -/

lemma toNat_ofNat_valid {n : Nat} (h : n.isValidChar) : (Char.ofNat n).toNat = n := by
  rw [Char.ofNat, dif_pos h]
  rfl

/-- The ASCII lower-case map never produces an upper-case letter. -/
lemma pyToLower_not_upper (c : Char) :
    ¬(65 ≤ (pyToLower c).toNat ∧ (pyToLower c).toNat ≤ 90) := by
  unfold pyToLower
  split
  · next h =>
    have hv : (c.toNat + 32).isValidChar := Or.inl (by omega)
    rw [toNat_ofNat_valid hv]
    omega
  · next h => exact h

lemma pyToLower_idem (c : Char) : pyToLower (pyToLower c) = pyToLower c := by
  have h := pyToLower_not_upper c
  rw [show pyToLower (pyToLower c) =
    (if 65 ≤ (pyToLower c).toNat ∧ (pyToLower c).toNat ≤ 90 then
      Char.ofNat ((pyToLower c).toNat + 32) else pyToLower c) from rfl, if_neg h]

lemma splitWsGo_append (w : Str) (rest acc : Str)
    (hw : ∀ c ∈ w, pyIsSpace c = false) :
    splitWsGo (w ++ rest) acc = splitWsGo rest (w.reverse ++ acc) := by
  induction w generalizing acc with
  | nil => simp
  | cons c w ih =>
    have hc : pyIsSpace c = false := hw c (by simp)
    simp only [List.cons_append, splitWsGo, hc, Bool.false_eq_true, if_false,
      List.append_eq]
    rw [ih (c :: acc) (fun x hx => hw x (by simp [hx]))]
    simp

lemma splitWsGo_words (Q : Char → Prop) (s : Str) :
    ∀ (acc : Str), (∀ c ∈ s, pyIsSpace c = false → Q c) →
      (∀ c ∈ acc, pyIsSpace c = false ∧ Q c) →
      ∀ w ∈ splitWsGo s acc, w ≠ [] ∧ ∀ c ∈ w, pyIsSpace c = false ∧ Q c := by
  induction s with
  | nil =>
    intro acc _ hacc w hw
    simp only [splitWsGo] at hw
    split at hw
    · simp at hw
    · next hne =>
      simp only [List.mem_singleton] at hw
      subst hw
      refine ⟨fun hrev => ?_, fun c hc => hacc c (List.mem_reverse.mp hc)⟩
      rw [List.reverse_eq_nil_iff] at hrev
      subst hrev
      simp at hne
  | cons c cs ih =>
    intro acc hs hacc w hw
    simp only [splitWsGo] at hw
    by_cases hc : pyIsSpace c = true
    · rw [if_pos hc] at hw
      split at hw
      · exact ih [] (fun x hx h => hs x (by simp [hx]) h) (by simp) w hw
      · next hne =>
        rcases List.mem_cons.mp hw with hw | hw
        · subst hw
          refine ⟨fun hrev => ?_, fun x hx => hacc x (List.mem_reverse.mp hx)⟩
          rw [List.reverse_eq_nil_iff] at hrev
          subst hrev
          simp at hne
        · exact ih [] (fun x hx h => hs x (by simp [hx]) h) (by simp) w hw
    · rw [if_neg hc] at hw
      refine ih (c :: acc) (fun x hx h => hs x (by simp [hx]) h) ?_ w hw
      intro x hx
      rcases List.mem_cons.mp hx with hx | hx
      · subst hx
        exact ⟨by simpa using hc, hs x (by simp) (by simpa using hc)⟩
      · exact hacc x hx

/-- Every word produced by `splitWs` is non-empty, space-free and drawn
from the input. -/
lemma splitWs_words (s : Str) :
    ∀ w ∈ splitWs s, w ≠ [] ∧ ∀ c ∈ w, pyIsSpace c = false ∧ c ∈ s :=
  splitWsGo_words (· ∈ s) s [] (fun _ hc _ => hc) (by simp)

lemma mem_joinSep (sep : Str) (ws : List Str) (c : Char)
    (hc : c ∈ joinSep sep ws) : c ∈ sep ∨ ∃ w ∈ ws, c ∈ w := by
  induction ws with
  | nil => simp [joinSep] at hc
  | cons x tl ih =>
    cases tl with
    | nil => exact Or.inr ⟨x, by simp, hc⟩
    | cons y tl2 =>
      simp only [joinSep] at hc
      rcases List.mem_append.mp hc with hxs | hjoin
      · rcases List.mem_append.mp hxs with hx | hsep
        · exact Or.inr ⟨x, by simp, hx⟩
        · exact Or.inl hsep
      · rcases ih hjoin with h | ⟨w, hw, hcw⟩
        · exact Or.inl h
        · exact Or.inr ⟨w, by simp [hw], hcw⟩

lemma splitWs_joinSep (ws : List Str)
    (h : ∀ w ∈ ws, w ≠ [] ∧ ∀ c ∈ w, pyIsSpace c = false) :
    splitWs (joinSep [' '] ws) = ws := by
  induction ws with
  | nil => rfl
  | cons w tl ih =>
    have hw := h w (by simp)
    cases tl with
    | nil =>
      show splitWs (joinSep [' '] [w]) = [w]
      have h1 : joinSep [' '] [w] = w := rfl
      rw [h1]
      unfold splitWs
      have h2 := splitWsGo_append w [] [] hw.2
      simp only [List.append_nil] at h2
      rw [h2]
      simp [splitWsGo, List.isEmpty_iff, hw.1]
    | cons w2 tl2 =>
      have h1 : joinSep [' '] (w :: w2 :: tl2) =
          w ++ (' ' :: joinSep [' '] (w2 :: tl2)) := by
        show (w ++ [' ']) ++ joinSep [' '] (w2 :: tl2) = _
        rw [List.append_assoc, List.singleton_append]
      rw [h1]
      unfold splitWs
      rw [splitWsGo_append w _ [] hw.2]
      simp only [List.append_nil]
      have hne : w.reverse.isEmpty = false := by
        simp [List.isEmpty_iff, hw.1]
      simp only [splitWsGo, show pyIsSpace ' ' = true from rfl, if_pos, hne,
        Bool.false_eq_true, if_false, List.reverse_reverse]
      rw [show splitWsGo (joinSep [' '] (w2 :: tl2)) [] =
        splitWs (joinSep [' '] (w2 :: tl2)) from rfl]
      rw [ih (fun x hx => h x (by simp [hx]))]

lemma map_id_of_fixed {f : Char → Char} {l : Str} (h : ∀ c ∈ l, f c = c) :
    l.map f = l := by
  induction l with
  | nil => rfl
  | cons c t ih => simp [h c (by simp), ih (fun x hx => h x (by simp [hx]))]

/-- C8. The text normalizer is idempotent — normalizing twice equals
normalizing once for every string — and empty (or missing, which the engine
reads as the empty string) input normalizes to the empty string. -/
theorem normalize_idempotent :
    _normalize_text [] = [] ∧
    ∀ s : Str, _normalize_text (_normalize_text s) = _normalize_text s := by
  refine ⟨rfl, fun s => ?_⟩
  by_cases hs : s.isEmpty = true
  · have h1 : _normalize_text s = [] := by rw [_normalize_text, if_pos hs]
    rw [h1]
    rfl
  · have hdef : _normalize_text s = collapseWs ((s.map pyToLower).map keepOrSpace) := by
      rw [_normalize_text, if_neg hs]
      rfl
    set o := _normalize_text s with hoo
    by_cases ho : o.isEmpty = true
    · have h0 : o = [] := by
        rwa [List.isEmpty_iff] at ho
      rw [h0]
      rfl
    · have hchars : ∀ c ∈ o, pyToLower c = c ∧ keepOrSpace c = c := by
        intro c hc
        rw [hdef] at hc
        rcases mem_joinSep [' '] (splitWs ((s.map pyToLower).map keepOrSpace)) c hc
          with hsep | ⟨w, hw, hcw⟩
        · have : c = ' ' := by simpa using hsep
          subst this
          exact ⟨by decide, by decide⟩
        · have h2 := (splitWs_words _ w hw).2 c hcw
          have hct := h2.2
          rcases List.mem_map.mp hct with ⟨z, hz, hzc⟩
          rcases List.mem_map.mp hz with ⟨x, _, hxz⟩
          by_cases hk : keepChar z = true
          · have hcz : c = z := by rw [← hzc, keepOrSpace, if_pos hk]
            subst hcz
            refine ⟨?_, by rw [keepOrSpace, if_pos hk]⟩
            rw [← hxz]
            exact pyToLower_idem x
          · have hcsp : c = ' ' := by rw [← hzc, keepOrSpace, if_neg hk]
            subst hcsp
            exact ⟨by decide, by decide⟩
      have hlower : o.map pyToLower = o :=
        map_id_of_fixed (fun c hc => (hchars c hc).1)
      have hkeep : o.map keepOrSpace = o :=
        map_id_of_fixed (fun c hc => (hchars c hc).2)
      have hcollapse : collapseWs o = o := by
        rw [hdef]
        show joinSep [' '] (splitWs (joinSep [' '] (splitWs _))) = _
        rw [splitWs_joinSep (splitWs _) (fun w hw =>
          ⟨(splitWs_words _ w hw).1, fun c hc => ((splitWs_words _ w hw).2 c hc).1⟩)]
        rfl
      rw [show _normalize_text o = collapseWs ((o.map pyToLower).map keepOrSpace) from
        by rw [_normalize_text, if_neg ho]; rfl, hlower, hkeep]
      exact hcollapse

/-! ### Codomain and resolution lemmas -/

/-- The categories the comment extractor can produce. -/
def commentRuleCats : List Str := [catDataIntegrity, catFunctional,
  catPerformance, catConnectivity, catFeature, catQuality, catAuth, catCrash,
  catIntegration, catConfig, catUiUx, catCompat]

/-- The categories the OCR extractor can produce. -/
def ocrRuleCats : List Str := [catFunctional, catPerformance, catConnectivity,
  catDataIntegrity, catQuality, catAuth, catConfig, catIntegration]

/-- The categories the filename extractor can produce. -/
def filenameRuleCats : List Str := [catFunctional, catAuth, catConnectivity]

lemma optChainNone {L : List Str} {b : Bool} {rest : Option Str}
    (hrest : rest = none ∨ ∃ c ∈ L, rest = some c) :
    (if b = true then none else rest) = none ∨
    ∃ c ∈ L, (if b = true then none else rest) = some c := by
  cases b
  · simpa using hrest
  · simp

lemma optChainSome {L : List Str} {b : Bool} {x : Str} {rest : Option Str}
    (hx : x ∈ L) (hrest : rest = none ∨ ∃ c ∈ L, rest = some c) :
    (if b = true then some x else rest) = none ∨
    ∃ c ∈ L, (if b = true then some x else rest) = some c := by
  cases b
  · simpa using hrest
  · exact Or.inr ⟨x, hx, by simp⟩

lemma categorize_from_comment_cases (t : Str) :
    categorize_from_comment t = none ∨
    ∃ c ∈ commentRuleCats, categorize_from_comment t = some c := by
  unfold categorize_from_comment
  dsimp only
  repeat first
    | exact Or.inl rfl
    | apply optChainNone
    | apply optChainSome (by decide)

lemma categorize_from_comment_mem {t c : Str}
    (h : categorize_from_comment t = some c) : c ∈ commentRuleCats := by
  rcases categorize_from_comment_cases t with h0 | ⟨d, hd, hsome⟩
  · rw [h0] at h; cases h
  · rw [hsome] at h
    injection h with h
    subst h
    exact hd

lemma categorize_from_ocr_cases (t : Str) :
    categorize_from_ocr t = none ∨
    ∃ c ∈ ocrRuleCats, categorize_from_ocr t = some c := by
  unfold categorize_from_ocr
  dsimp only
  repeat first
    | exact Or.inl rfl
    | apply optChainNone
    | apply optChainSome (by decide)

lemma categorize_from_ocr_mem {t c : Str}
    (h : categorize_from_ocr t = some c) : c ∈ ocrRuleCats := by
  rcases categorize_from_ocr_cases t with h0 | ⟨d, hd, hsome⟩
  · rw [h0] at h; cases h
  · rw [hsome] at h
    injection h with h
    subst h
    exact hd

lemma categorize_from_filename_cases (t : Str) :
    categorize_from_filename t = none ∨
    ∃ c ∈ filenameRuleCats, categorize_from_filename t = some c := by
  unfold categorize_from_filename
  dsimp only
  repeat first
    | exact Or.inl rfl
    | apply optChainNone
    | apply optChainSome (by decide)

lemma categorize_from_filename_mem {t c : Str}
    (h : categorize_from_filename t = some c) : c ∈ filenameRuleCats := by
  rcases categorize_from_filename_cases t with h0 | ⟨d, hd, hsome⟩
  · rw [h0] at h; cases h
  · rw [hsome] at h
    injection h with h
    subst h
    exact hd

lemma post_adjustment_cases {mp : Option Str} {a b c : Bool} {x : Str}
    (h : post_adjustment mp a b c = some x) :
    x = catCrash ∨ x = catConnectivity ∨ x = catAuth ∨ mp = some x := by
  unfold post_adjustment at h
  repeat' split at h
  · cases h; simp
  · cases h; simp
  · cases h; simp
  · exact Or.inr (Or.inr (Or.inr h))

lemma mem_addSet {s : List Str} {x c : Str} (h : c ∈ addSet s x) :
    c ∈ s ∨ c = x := by
  unfold addSet at h
  split at h
  · exact Or.inl h
  · rcases List.mem_append.mp h with h | h
    · exact Or.inl h
    · exact Or.inr (by simpa using h)

/-- Invariant of the keyword-map fold: every collected category is the
non-empty category value of some map entry. -/
lemma kwFold_cats {t : Str} (KM : List (Str × Str)) :
    ∀ (l : List (Str × Str)) (acc : List Str × List Str),
      (∀ p ∈ l, p ∈ KM) →
      (∀ c ∈ acc.2, c ≠ [] ∧ ∃ p ∈ KM, c = p.2) →
      ∀ c ∈ (l.foldl (kwStep t) acc).2, c ≠ [] ∧ ∃ p ∈ KM, c = p.2 := by
  intro l
  induction l with
  | nil => intro acc _ hacc c hc; exact hacc c hc
  | cons kv tl ih =>
    intro acc hl hacc c hc
    refine ih _ (fun p hp => hl p (by simp [hp])) ?_ c hc
    intro x hx
    unfold kwStep at hx
    dsimp only at hx
    split at hx
    · split at hx
      · next hne =>
        rcases mem_addSet hx with hx | hx
        · exact hacc x hx
        · subst hx
          exact ⟨by simpa using hne, kv, hl kv (by simp), rfl⟩
      · exact hacc x hx
    · exact hacc x hx

/-- Invariant of the regex-map fold: every collected category either was
already collected or is the non-empty category value of some map entry. -/
lemma reFold_cats {t : Str} (RM : List (Str × RE × Str)) :
    ∀ (l : List (Str × RE × Str)) (acc : List Str × List Str)
      (P : Str → Prop),
      (∀ p ∈ l, p ∈ RM) →
      (∀ c ∈ acc.2, P c) →
      (∀ p ∈ RM, ¬p.2.2.isEmpty → P p.2.2) →
      ∀ c ∈ (l.foldl (reStep t) acc).2, P c := by
  intro l
  induction l with
  | nil => intro acc P _ hacc _ c hc; exact hacc c hc
  | cons prc tl ih =>
    intro acc P hl hacc hRM c hc
    refine ih _ P (fun p hp => hl p (by simp [hp])) ?_ hRM c hc
    intro x hx
    unfold reStep at hx
    split at hx
    · split at hx
      · next hne =>
        rcases mem_addSet hx with hx | hx
        · exact hacc x hx
        · subst hx
          exact hRM prc (hl prc (by simp)) (by simpa using hne)
      · exact hacc x hx
    · exact hacc x hx

/-- Every matched category of `_keyword_matches` is non-empty and is a
category value of the keyword map or of the regex map. -/
lemma keyword_matches_cats {cat : Catalog} {t : Str} :
    ∀ c ∈ (_keyword_matches cat t).2,
      c ≠ [] ∧ ((∃ p ∈ cat.keyword_map, c = p.2) ∨
        ∃ p ∈ cat.regex_map, c = p.2.2) := by
  unfold _keyword_matches
  dsimp only
  split
  · simp
  · intro c hc
    refine reFold_cats cat.regex_map cat.regex_map _
      (fun c => c ≠ [] ∧ ((∃ p ∈ cat.keyword_map, c = p.2) ∨
        ∃ p ∈ cat.regex_map, c = p.2.2))
      (fun p hp => hp) ?_ ?_ c hc
    · intro x hx
      have := kwFold_cats cat.keyword_map cat.keyword_map ([], [])
        (fun p hp => hp) (by simp) x hx
      exact ⟨this.1, Or.inl this.2⟩
    · intro p hp hne
      refine ⟨?_, Or.inr ⟨p, hp, rfl⟩⟩
      intro h
      exact hne (by simp [h])

lemma minStep_fold_isSome (order : List Str) :
    ∀ (l : List Str) (b : Str), l.foldl (minStep order) (some b) ≠ none := by
  intro l
  induction l with
  | nil => intro b; simp
  | cons c tl ih =>
    intro b
    show tl.foldl (minStep order) (minStep order (some b) c) ≠ none
    unfold minStep
    dsimp only
    split
    · exact ih c
    · exact ih b

lemma resolve_isSome {order cats : List Str} (h : cats ≠ []) :
    ∃ m, _resolve_by_priority order cats = some m := by
  unfold _resolve_by_priority
  rw [if_neg (by simpa [List.isEmpty_iff] using h)]
  cases cats with
  | nil => exact absurd rfl h
  | cons c tl =>
    show ∃ m, tl.foldl (minStep order) (minStep order none c) = some m
    rw [show minStep order none c = some c from rfl]
    rcases hx : tl.foldl (minStep order) (some c) with _ | m
    · exact absurd hx (minStep_fold_isSome order tl c)
    · exact ⟨m, rfl⟩

lemma minStep_fold_mem (order : List Str) :
    ∀ (l : List Str) (b : Option Str) (m : Str),
      l.foldl (minStep order) b = some m → b = some m ∨ m ∈ l := by
  intro l
  induction l with
  | nil => intro b m h; exact Or.inl h
  | cons c tl ih =>
    intro b m h
    rcases ih (minStep order b c) m h with h2 | h2
    · rcases b with _ | bb
      · injection h2 with h2
        exact Or.inr (by simp [h2])
      · unfold minStep at h2
        dsimp only at h2
        split at h2
        · injection h2 with h2
          exact Or.inr (by simp [h2])
        · exact Or.inl h2
    · exact Or.inr (by simp [h2])

lemma minStep_fold_min (order : List Str) :
    ∀ (l : List Str) (b : Option Str) (m : Str),
      l.foldl (minStep order) b = some m →
      (∀ c ∈ l, orderKey order m ≤ orderKey order c) ∧
      (∀ bb, b = some bb → orderKey order m ≤ orderKey order bb) := by
  intro l
  induction l with
  | nil =>
    intro b m h
    refine ⟨by simp, fun bb hb => ?_⟩
    rw [hb] at h
    injection h with h
    rw [h]
  | cons c tl ih =>
    intro b m h
    have IH := ih (minStep order b c) m h
    constructor
    · intro x hx
      rcases List.mem_cons.mp hx with rfl | hx'
      · rcases b with _ | bb
        · exact IH.2 x rfl
        · by_cases hlt : orderKey order x < orderKey order bb
          · exact IH.2 x (by unfold minStep; dsimp only; rw [if_pos hlt])
          · have h1 := IH.2 bb (by unfold minStep; dsimp only; rw [if_neg hlt])
            exact le_trans h1 (le_of_not_lt hlt)
      · exact IH.1 x hx'
    · intro bb hbb
      subst hbb
      by_cases hlt : orderKey order c < orderKey order bb
      · have h1 := IH.2 c (by unfold minStep; dsimp only; rw [if_pos hlt])
        exact le_trans h1 (le_of_lt hlt)
      · exact IH.2 bb (by unfold minStep; dsimp only; rw [if_neg hlt])

lemma minStep_fold_first (order : List Str) :
    ∀ (l : List Str) (b : Option Str) (m : Str),
      l.foldl (minStep order) b = some m →
      b = some m ∨
      ∃ l₁ l₂, l = l₁ ++ m :: l₂ ∧
        (∀ bb, b = some bb → orderKey order m < orderKey order bb) ∧
        ∀ c ∈ l₁, orderKey order m < orderKey order c := by
  intro l
  induction l with
  | nil => intro b m h; exact Or.inl h
  | cons c tl ih =>
    intro b m h
    rcases ih (minStep order b c) m h with h2 | ⟨l₁, l₂, heq, hb, hl₁⟩
    · rcases b with _ | bb
      · injection h2 with h2
        subst h2
        refine Or.inr ⟨[], tl, rfl, ?_, ?_⟩
        · intro bb hb
          cases hb
        · simp
      · unfold minStep at h2
        dsimp only at h2
        split at h2
        · next hlt =>
          injection h2 with h2
          subst h2
          refine Or.inr ⟨[], tl, rfl, fun bb' hb' => ?_, by simp⟩
          injection hb' with hb'
          subst hb'
          exact hlt
        · exact Or.inl h2
    · refine Or.inr ⟨c :: l₁, l₂, by simp [heq], ?_, ?_⟩
      · intro bb hbb
        subst hbb
        by_cases hlt : orderKey order c < orderKey order bb
        · exact lt_trans (hb c (by unfold minStep; dsimp only; rw [if_pos hlt])) hlt
        · exact hb bb (by unfold minStep; dsimp only; rw [if_neg hlt])
      · intro x hx
        rcases List.mem_cons.mp hx with rfl | hx'
        · rcases b with _ | bb
          · exact hb x rfl
          · by_cases hlt : orderKey order x < orderKey order bb
            · exact hb x (by unfold minStep; dsimp only; rw [if_pos hlt])
            · exact lt_of_lt_of_le
                (hb bb (by unfold minStep; dsimp only; rw [if_neg hlt]))
                (le_of_not_lt hlt)
        · exact hl₁ x hx'

lemma orderKey_foldl_aux (c : Str) :
    ∀ (l : List Str) (i : Nat) (o : Option Nat), c ∉ l →
      (l.foldl (fun st x => (st.1 + 1, if x == c then some st.1 else st.2))
        (i, o)).2 = o := by
  intro l
  induction l with
  | nil => intro i o _; rfl
  | cons x tl ih =>
    intro i o h
    have hx : (x == c) = false := by
      simp only [List.mem_cons, not_or] at h
      simpa [beq_eq_false_iff_ne] using fun he => h.1 he.symm
    show (tl.foldl _ (i + 1, if (x == c) = true then some i else o)).2 = o
    rw [hx]
    simpa using ih (i + 1) o (by simp only [List.mem_cons, not_or] at h; exact h.2)

/-- A category absent from the priority order receives the sentinel key
`10000`, placing it after every present category (the configured orders
have far fewer than 10000 entries). -/
lemma orderKey_of_not_mem {order : List Str} {c : Str} (h : c ∉ order) :
    orderKey order c = 10000 := by
  unfold orderKey
  rw [orderKey_foldl_aux c order 0 none h]
  rfl

/-! ### Origin and confidence walks over the orchestrator -/

/-- Modelled from the spec: the canonical category enumeration. The file
`config/categories.json` that `mapping_rules.py` reads at import time is
not under `src/`; §3 of the specification lists these thirteen canonical
ids (including `product_quality_issues`). -/
def canonicalCategories : List Str := strs ["functional_errors",
  "ui_ux_issues", "performance_issues", "connectivity_problems",
  "authentication_access", "data_integrity_issues", "crash_stability",
  "integration_failures", "configuration_settings", "compatibility_issues",
  "feature_requests", "product_quality_issues", "unclear_insufficient_info"]

/-- The category ids hard-coded in the rules of `mapping_rules.py`
(every canonical id except `unclear_insufficient_info`). -/
def hardCodedCats : List Str := [catFunctional, catUiUx, catPerformance,
  catConnectivity, catAuth, catDataIntegrity, catCrash, catIntegration,
  catConfig, catCompat, catFeature, catQuality]

lemma resolve_mem {order cats : List Str} {m : Str}
    (h : _resolve_by_priority order cats = some m) : m ∈ cats := by
  unfold _resolve_by_priority at h
  split at h
  · cases h
  · rcases minStep_fold_mem order cats none m h with h2 | h2
    · cases h2
    · exact h2

/-- Case analysis on an if-then-else under any predicate. -/
lemma ite_cases {α : Type} {P : α → Prop} (c : Prop) [Decidable c] {x y : α}
    (hx : c → P x) (hy : ¬c → P y) : P (if c then x else y) := by
  split
  · next h => exact hx h
  · next h => exact hy h

/-- Where a result category can come from: a hard-coded rule category, the
model prediction, a non-empty category value of the loaded catalog, or the
unclear sentinel — the latter only when `allow_unclear_label` holds. -/
def OriginOK (cat : Catalog) (record : Record) (o f : Option (List Str))
    (mp : Option Str) (r : Str × ℚ × String) : Prop :=
  r.1 ∈ hardCodedCats ∨ mp = some r.1 ∨
  (∃ p ∈ cat.keyword_map, r.1 = p.2) ∨ (∃ p ∈ cat.regex_map, r.1 = p.2.2) ∨
  (r.1 = catUnclear ∧ allow_unclear_label cat record o f = true)

lemma OriginOK_of_cat {cat : Catalog} {record : Record}
    {o f : Option (List Str)} {mp : Option Str} {c : Str} {v : ℚ}
    {reason : String} (h : c ∈ hardCodedCats) :
    OriginOK cat record o f mp (c, v, reason) := Or.inl h

lemma OriginOK_of_mp {cat : Catalog} {record : Record}
    {o f : Option (List Str)} {mp : Option Str} {c : Str} {v : ℚ}
    {reason : String} (h : mp = some c) :
    OriginOK cat record o f mp (c, v, reason) := Or.inr (Or.inl h)

lemma finalStages_origin (cat : Catalog) (record : Record)
    (o f : Option (List Str)) (mp : Option Str) (comment : Str)
    (kws : List Str) (sra : Bool) :
    OriginOK cat record o f mp (finalStages cat record o f mp comment kws sra) := by
  unfold finalStages
  split
  · next h =>
    rcases mp with _ | s
    · simp [truthyStr] at h
    · exact OriginOK_of_mp rfl
  · split
    · next h => exact Or.inr (Or.inr (Or.inr (Or.inr ⟨rfl, h⟩)))
    · split
      · next h =>
        rcases mp with _ | s
        · simp [truthyStr] at h
        · exact OriginOK_of_mp rfl
      · exact OriginOK_of_cat (by decide)

lemma weakTail_origin (cat : Catalog) (record : Record)
    (o f : Option (List Str)) (mp : Option Str) (comment : Str)
    (kws : List Str) (sra : Bool) (combined : Str) (gh : List Str) :
    OriginOK cat record o f mp
      (weakTail cat record o f mp comment kws sra combined gh) := by
  unfold weakTail
  dsimp only
  repeat first
    | exact OriginOK_of_cat (by decide)
    | apply finalStages_origin
    | intro hcond
    | apply ite_cases

lemma comment_sub_hard : ∀ c ∈ commentRuleCats, c ∈ hardCodedCats := by decide
lemma ocr_sub_hard : ∀ c ∈ ocrRuleCats, c ∈ hardCodedCats := by decide
lemma filename_sub_hard : ∀ c ∈ filenameRuleCats, c ∈ hardCodedCats := by decide

/-- Every category the orchestrator returns is a hard-coded rule category,
the model prediction, a non-empty catalog value, or — only when the gate
`allow_unclear_label` holds — the unclear sentinel. -/
lemma categorize_origin (cat : Catalog) (record : Record)
    (ocr_texts filenames : Option (List Str)) (mp : Option Str) :
    OriginOK cat record ocr_texts filenames mp
      (categorize_record_with_meta cat record ocr_texts filenames mp) := by
  unfold categorize_record_with_meta
  dsimp only
  cases hc : categorize_from_comment (_norm (effectiveComment record)) with
  | some c => exact OriginOK_of_cat (comment_sub_hard c (categorize_from_comment_mem hc))
  | none =>
  cases ho : (ocr_texts.getD []).findSome? categorize_from_ocr with
  | some c =>
    have ⟨a, _, ha⟩ := List.exists_of_findSome?_eq_some ho
    exact OriginOK_of_cat (ocr_sub_hard c (categorize_from_ocr_mem ha))
  | none =>
  cases hf : (filenames.getD []).findSome? categorize_from_filename with
  | some c =>
    have ⟨a, _, ha⟩ := List.exists_of_findSome?_eq_some hf
    exact OriginOK_of_cat (filename_sub_hard c (categorize_from_filename_mem ha))
  | none =>
  apply ite_cases
  · -- keyword/regex catalog branch
    intro _
    cases hr : _resolve_by_priority cat.priority_order
        (_keyword_matches cat (combinedOf (_norm (effectiveComment record)) ocr_texts)).2 with
    | some r =>
      dsimp only
      by_cases he : r.isEmpty = true
      · rw [if_pos he]
        exact OriginOK_of_cat (by decide)
      · rw [if_neg he]
        have hmem := resolve_mem hr
        rcases (keyword_matches_cats r hmem).2 with h | h
        · exact Or.inr (Or.inr (Or.inl h))
        · exact Or.inr (Or.inr (Or.inr (Or.inl h)))
    | none => exact OriginOK_of_cat (by decide)
  · intro _
    apply ite_cases
    · -- post-adjustment branch
      intro hpa
      cases hadj : post_adjustment mp
          (_match_any (_norm (effectiveComment record))
            (strs ["crash", "force close", "stopped working"]))
          (_match_any (_norm (effectiveComment record))
            (strs ["unable to connect", "network error", "api failed", "timeout"]))
          (_match_any (_norm (effectiveComment record))
            (strs ["login", "sign in", "password", "otp"])) with
      | none =>
        rw [hadj] at hpa
        simp [truthyStr] at hpa
      | some a =>
        rcases post_adjustment_cases hadj with h | h | h | h
        · subst h
          exact OriginOK_of_cat (by decide)
        · subst h
          exact OriginOK_of_cat (by decide)
        · subst h
          exact OriginOK_of_cat (by decide)
        · exact OriginOK_of_mp h
    · intro _
      apply ite_cases
      · intro _
        apply finalStages_origin
      · intro _
        repeat first
          | exact OriginOK_of_cat (by decide)
          | apply weakTail_origin
          | (rcases mp with _ | s
             · simp [truthyStr] at hcond2
             · exact OriginOK_of_mp rfl)
          | intro hcond2
          | apply ite_cases

/-- The confidence and reason contract of a result triple: the confidence
is within `[0, 0.99]`, a strong-rule reason carries exactly `0.7`, and the
unclear gate carries exactly `0.3`. -/
def ConfOK (r : Str × ℚ × String) : Prop :=
  (0 ≤ r.2.1 ∧ r.2.1 ≤ q 99 100) ∧
  ((r.2.2 = "strong_comment_regex" ∨ r.2.2 = "strong_ocr_regex" ∨
    r.2.2 = "filename_rule") → r.2.1 = q 7 10) ∧
  (r.2.2 = "unclear_gate" → r.2.1 = q 3 10)

lemma ConfOK_other {c : Str} {n : Nat} {sp sr mu : Bool} {cc : Str}
    {reason : String} (h1 : reason ≠ "strong_comment_regex")
    (h2 : reason ≠ "strong_ocr_regex") (h3 : reason ≠ "filename_rule")
    (h4 : reason ≠ "unclear_gate") :
    ConfOK (c, _compute_confidence n sp sr mu cc, reason) :=
  ⟨conf_bounds n sp sr mu cc,
   fun h => (h.elim (fun h => absurd h h1)
     (fun h => h.elim (fun h => absurd h h2) (fun h => absurd h h3))),
   fun h => absurd h h4⟩

lemma ConfOK_strongLeaf {c cc : Str} {reason : String}
    (h4 : reason ≠ "unclear_gate") :
    ConfOK (c, _compute_confidence 0 false true false cc, reason) :=
  ⟨conf_bounds 0 false true false cc, fun _ => conf_strong cc,
   fun h => absurd h h4⟩

lemma ConfOK_gate {c : Str} : ConfOK (c, q 3 10, "unclear_gate") := by
  refine ⟨⟨?_, ?_⟩, ?_, fun _ => rfl⟩
  · show (0 : ℚ) ≤ q 3 10
    decide
  · show q 3 10 ≤ q 99 100
    decide
  · intro h
    rcases h with h | h | h
    · exact absurd h (by decide : ¬(("unclear_gate" : String) = "strong_comment_regex"))
    · exact absurd h (by decide : ¬(("unclear_gate" : String) = "strong_ocr_regex"))
    · exact absurd h (by decide : ¬(("unclear_gate" : String) = "filename_rule"))

lemma finalStages_conf (cat : Catalog) (record : Record)
    (o f : Option (List Str)) (mp : Option Str) (comment : Str)
    (kws : List Str) (sra : Bool) :
    ConfOK (finalStages cat record o f mp comment kws sra) := by
  unfold finalStages
  split
  · exact ConfOK_other (by decide) (by decide) (by decide) (by decide)
  · split
    · exact ConfOK_gate
    · split
      · exact ConfOK_other (by decide) (by decide) (by decide) (by decide)
      · exact ConfOK_other (by decide) (by decide) (by decide) (by decide)

/-- Chain step: an if-then-else satisfies the confidence contract when
both branches do. -/
lemma confChain {c : Prop} [Decidable c] {x y : Str × ℚ × String}
    (hx : ConfOK x) (hy : ConfOK y) : ConfOK (if c then x else y) :=
  ite_cases c (fun _ => hx) (fun _ => hy)

lemma weakTail_conf (cat : Catalog) (record : Record)
    (o f : Option (List Str)) (mp : Option Str) (comment : Str)
    (kws : List Str) (sra : Bool) (combined : Str) (gh : List Str) :
    ConfOK (weakTail cat record o f mp comment kws sra combined gh) := by
  unfold weakTail
  dsimp only
  exact confChain (ConfOK_other (by decide) (by decide) (by decide) (by decide))
    (confChain (ConfOK_other (by decide) (by decide) (by decide) (by decide))
    (confChain (ConfOK_other (by decide) (by decide) (by decide) (by decide))
    (confChain (ConfOK_other (by decide) (by decide) (by decide) (by decide))
    (confChain (ConfOK_other (by decide) (by decide) (by decide) (by decide))
    (confChain (ConfOK_other (by decide) (by decide) (by decide) (by decide))
    (confChain (ConfOK_other (by decide) (by decide) (by decide) (by decide))
    (confChain (finalStages_conf cat record o f mp comment kws sra)
    (confChain (finalStages_conf cat record o f mp comment kws sra)
    (confChain (ConfOK_other (by decide) (by decide) (by decide) (by decide))
    (confChain (ConfOK_other (by decide) (by decide) (by decide) (by decide))
    (confChain (ConfOK_other (by decide) (by decide) (by decide) (by decide))
    (finalStages_conf cat record o f mp comment kws sra))))))))))))

/-- Every result of the orchestrator satisfies the confidence and reason
contract. -/
lemma categorize_conf (cat : Catalog) (record : Record)
    (ocr_texts filenames : Option (List Str)) (mp : Option Str) :
    ConfOK (categorize_record_with_meta cat record ocr_texts filenames mp) := by
  unfold categorize_record_with_meta
  dsimp only
  cases hc : categorize_from_comment (_norm (effectiveComment record)) with
  | some c => exact ConfOK_strongLeaf (by decide)
  | none =>
  cases ho : (ocr_texts.getD []).findSome? categorize_from_ocr with
  | some c => exact ConfOK_strongLeaf (by decide)
  | none =>
  cases hf : (filenames.getD []).findSome? categorize_from_filename with
  | some c => exact ConfOK_strongLeaf (by decide)
  | none =>
  exact confChain (ConfOK_other (by split <;> decide) (by split <;> decide)
      (by split <;> decide) (by split <;> decide))
    (confChain (ConfOK_other (by split <;> decide) (by split <;> decide)
      (by split <;> decide) (by split <;> decide))
    (confChain (finalStages_conf cat record ocr_texts filenames mp _ _ _)
    (confChain (ConfOK_other (by decide) (by decide) (by decide) (by decide))
    (confChain (ConfOK_other (by decide) (by decide) (by decide) (by decide))
    (confChain (ConfOK_other (by decide) (by decide) (by decide) (by decide))
    (confChain (ConfOK_other (by decide) (by decide) (by decide) (by decide))
    (weakTail_conf cat record ocr_texts filenames mp _ _ _ _ _)))))))

/-! ### Claim theorems -/

lemma hard_sub_canonical : ∀ c ∈ hardCodedCats, c ∈ canonicalCategories := by
  decide

/-- C1. For every report, OCR list, filename list and model prediction
(`none` or a canonical category), over any catalog whose keyword- and
regex-map values are canonical, `categorize_record_with_meta` returns
exactly one category drawn from the canonical thirteen-id enumeration
together with a confidence in `[0, 0.99]`; the embedding is a total
function, so no input raises. -/
theorem totality_canonical_category (cat : Catalog) (record : Record)
    (ocr_texts filenames : Option (List Str)) (model_pred : Option Str)
    (hkw : ∀ p ∈ cat.keyword_map, p.2 ∈ canonicalCategories)
    (hre : ∀ p ∈ cat.regex_map, p.2.2 ∈ canonicalCategories)
    (hmp : ∀ s, model_pred = some s → s ∈ canonicalCategories) :
    (categorize_record_with_meta cat record ocr_texts filenames model_pred).1 ∈
      canonicalCategories ∧
    0 ≤ (categorize_record_with_meta cat record ocr_texts filenames model_pred).2.1 ∧
    (categorize_record_with_meta cat record ocr_texts filenames model_pred).2.1 ≤
      q 99 100 := by
  have horig := categorize_origin cat record ocr_texts filenames model_pred
  have hconf := (categorize_conf cat record ocr_texts filenames model_pred).1
  refine ⟨?_, hconf.1, hconf.2⟩
  rcases horig with h | h | ⟨p, hp, h⟩ | ⟨p, hp, h⟩ | ⟨h, _⟩
  · exact hard_sub_canonical _ h
  · exact hmp _ h
  · rw [h]
    exact hkw p hp
  · rw [h]
    exact hre p hp
  · rw [h]
    decide

/-- Witness for C1 at a concrete input (empty catalog maps, no model
prediction). -/
theorem totality_canonical_category_witness :
    (categorize_record_with_meta fallbackCatalog
      { comment := some (chars "App is very slow") } (some []) (some []) none).1 ∈
      canonicalCategories ∧
    0 ≤ (categorize_record_with_meta fallbackCatalog
      { comment := some (chars "App is very slow") } (some []) (some []) none).2.1 ∧
    (categorize_record_with_meta fallbackCatalog
      { comment := some (chars "App is very slow") } (some []) (some []) none).2.1 ≤
      q 99 100 :=
  totality_canonical_category fallbackCatalog
    { comment := some (chars "App is very slow") } (some []) (some []) none
    (by intro p hp; simp [fallbackCatalog] at hp)
    (by intro p hp; simp [fallbackCatalog] at hp)
    (fun s h => nomatch h)

/-- C2 counterexample. The claim quantifies over every canonical model
prediction, but with `model_pred = unclear_insufficient_info` the final
model fallback (source line 694) returns `unclear_insufficient_info` even
though `allow_unclear_label` is `false` (the comment has twelve usable
characters): the engine does label the report unclear although a usable
signal exists. -/
theorem model_unclear_bypasses_gate :
    catUnclear ∈ canonicalCategories ∧
    allow_unclear_label fallbackCatalog
      { comment := some (chars "abcd efgh ijkl") } (some []) (some []) = false ∧
    categorize_record_with_meta fallbackCatalog
      { comment := some (chars "abcd efgh ijkl") } (some []) (some [])
      (some catUnclear) =
      (catUnclear, q 7 10, "model_pred_fallback") := by decide

/-- C2 amended. For every input on which `allow_unclear_label` is `false`,
and every model prediction other than `unclear_insufficient_info` (in
particular `none`), over any catalog whose keyword- and regex-map values
never name `unclear_insufficient_info`, the engine never returns
`unclear_insufficient_info`. -/
theorem unclear_only_from_gate (cat : Catalog) (record : Record)
    (ocr_texts filenames : Option (List Str)) (model_pred : Option Str)
    (hgate : allow_unclear_label cat record ocr_texts filenames = false)
    (hmp : model_pred ≠ some catUnclear)
    (hkw : ∀ p ∈ cat.keyword_map, p.2 ≠ catUnclear)
    (hre : ∀ p ∈ cat.regex_map, p.2.2 ≠ catUnclear) :
    (categorize_record_with_meta cat record ocr_texts filenames model_pred).1 ≠
      catUnclear := by
  intro hu
  rcases categorize_origin cat record ocr_texts filenames model_pred with
    h | h | ⟨p, hp, h⟩ | ⟨p, hp, h⟩ | ⟨_, hg⟩
  · rw [hu] at h
    exact absurd h (by decide)
  · rw [hu] at h
    exact hmp h
  · rw [hu] at h
    exact hkw p hp h.symm
  · rw [hu] at h
    exact hre p hp h.symm
  · rw [hgate] at hg
    cases hg

/-- Witness for the amended C2 at the spec's weak-signal example: empty
comment, `ocr_texts = ["12345"]`, no model prediction — the result is not
`unclear_insufficient_info`. -/
theorem unclear_only_from_gate_witness :
    allow_unclear_label fallbackCatalog { comment := some [] }
      (some [chars "12345"]) (some [chars "image.jpg"]) = false ∧
    (categorize_record_with_meta fallbackCatalog { comment := some [] }
      (some [chars "12345"]) (some [chars "image.jpg"]) none).1 ≠ catUnclear :=
  ⟨by decide,
   unclear_only_from_gate fallbackCatalog { comment := some [] }
     (some [chars "12345"]) (some [chars "image.jpg"]) none (by decide)
     (by simp) (by intro p hp; simp [fallbackCatalog] at hp)
     (by intro p hp; simp [fallbackCatalog] at hp)⟩

/-- C3 (code bug). `categorize_from_filename` tests `.txt`/`.log` on the
normalized filename, but `_normalize_text` has already replaced the dot by
a space, so the suffix test can never fire: a raw filename ending in
`.txt` can force a category (here `connectivity_problems` via the
`network` substring), and a bare `.txt` filename does not count toward the
usability gate, contradicting both the claim and the comments in the
source (lines 454-458 and 260-261). -/
theorem log_suffix_check_dead :
    categorize_from_filename (chars "network_error.txt") = some catConnectivity ∧
    _has_usable_content [] none (some [chars "a.txt"]) none = false := by decide

/-- C4. Whenever the comment extractor fires on the record's effective
(translated-or-raw) comment, the orchestrator returns exactly that
category with confidence 0.7 and reason `strong_comment_regex`, whatever
the OCR texts, filenames and model prediction are. -/
theorem strong_comment_precedence (cat : Catalog) (record : Record)
    (ocr_texts filenames : Option (List Str)) (model_pred : Option Str)
    (c : Str)
    (h : categorize_from_comment (_norm (effectiveComment record)) = some c) :
    categorize_record_with_meta cat record ocr_texts filenames model_pred =
      (c, q 7 10, "strong_comment_regex") := by
  unfold categorize_record_with_meta
  dsimp only
  rw [h]
  dsimp only
  rw [conf_strong]

/-- Witness for C4 at the spec's example: comment
`"Feature request: add barcode scanner"` beats the OCR text `"Loading"`
and the filename `"login.png"` and yields `feature_requests`. -/
theorem strong_comment_precedence_witness :
    categorize_from_comment (_norm (effectiveComment
      { comment := some (chars "Feature request: add barcode scanner") })) =
      some catFeature ∧
    categorize_record_with_meta fallbackCatalog
      { comment := some (chars "Feature request: add barcode scanner") }
      (some [chars "Loading"]) (some [chars "login.png"]) none =
      (catFeature, q 7 10, "strong_comment_regex") :=
  ⟨by decide,
   strong_comment_precedence fallbackCatalog
     { comment := some (chars "Feature request: add barcode scanner") }
     (some [chars "Loading"]) (some [chars "login.png"]) none catFeature
     (by decide)⟩

/-- C6. Every confidence the engine returns lies in `[0, 0.99]` and is
never exactly `1`; whenever a strong rule fired (reasons
`strong_comment_regex`, `strong_ocr_regex`, `filename_rule`) the
confidence is at least `0.7`; and a pure unclear-gate result carries
exactly `0.3`. -/
theorem confidence_contract (cat : Catalog) (record : Record)
    (ocr_texts filenames : Option (List Str)) (model_pred : Option Str) :
    (0 ≤ (categorize_record_with_meta cat record ocr_texts filenames model_pred).2.1 ∧
     (categorize_record_with_meta cat record ocr_texts filenames model_pred).2.1 ≤
       q 99 100 ∧
     (categorize_record_with_meta cat record ocr_texts filenames model_pred).2.1 ≠ 1) ∧
    (((categorize_record_with_meta cat record ocr_texts filenames model_pred).2.2 =
        "strong_comment_regex" ∨
      (categorize_record_with_meta cat record ocr_texts filenames model_pred).2.2 =
        "strong_ocr_regex" ∨
      (categorize_record_with_meta cat record ocr_texts filenames model_pred).2.2 =
        "filename_rule") →
      q 7 10 ≤
        (categorize_record_with_meta cat record ocr_texts filenames model_pred).2.1) ∧
    ((categorize_record_with_meta cat record ocr_texts filenames model_pred).2.2 =
        "unclear_gate" →
      (categorize_record_with_meta cat record ocr_texts filenames model_pred).2.1 =
        q 3 10) := by
  obtain ⟨⟨hlo, hhi⟩, hstrong, hgate⟩ :=
    categorize_conf cat record ocr_texts filenames model_pred
  refine ⟨⟨hlo, hhi, ?_⟩, fun h => le_of_eq (hstrong h).symm, hgate⟩
  exact ne_of_lt (lt_of_le_of_lt hhi (by rw [q_99_100]; norm_num))

/-- Witness for C6 at the pure unclear-gate input (empty comment, empty
OCR, only `image.jpg`): the reason is `unclear_gate` and the confidence is
exactly `0.3`. -/
theorem confidence_contract_witness :
    (categorize_record_with_meta fallbackCatalog { comment := some [] }
      (some []) (some [chars "image.jpg"]) none).2.2 = "unclear_gate" ∧
    (categorize_record_with_meta fallbackCatalog { comment := some [] }
      (some []) (some [chars "image.jpg"]) none).2.1 = q 3 10 :=
  ⟨by decide,
   (confidence_contract fallbackCatalog { comment := some [] }
     (some []) (some [chars "image.jpg"]) none).2.2 (by decide)⟩

/-- Python iterates `matched_categories` (a `set`, line 131) in an
unspecified hash-based order, so only consequences of
`sorted(categories, key)[0]` that are independent of the enumeration order
are guarantees of the program. This lemma quantifies over every
enumeration (permutation of the duplicate-free member list): when the set
has a unique `orderKey` minimizer, every enumeration resolves to it. -/
lemma resolve_unique_min {order cats enum : List Str} {m : Str}
    (hperm : enum.Perm cats) (hmem : m ∈ cats)
    (huniq : ∀ c ∈ cats, c ≠ m →
      orderKey order m < orderKey order c) :
    _resolve_by_priority order enum = some m := by
  have hne : enum ≠ [] := List.ne_nil_of_mem (hperm.mem_iff.mpr hmem)
  obtain ⟨m2, hm2⟩ := @resolve_isSome order enum hne
  have hfold : enum.foldl (minStep order) none = some m2 := by
    have h := hm2
    unfold _resolve_by_priority at h
    rw [if_neg (by simpa [List.isEmpty_iff] using hne)] at h
    exact h
  have hle := (minStep_fold_min order enum none m2 hfold).1 m
    (hperm.mem_iff.mpr hmem)
  by_cases heq : m2 = m
  · rw [hm2, heq]
  · exact absurd (lt_of_le_of_lt hle
      (huniq m2 (hperm.subset (resolve_mem hm2)) heq)) (lt_irrefl _)

/-- C7 counterexample. The tie-break clause of the claim ("matched
categories absent from `priority_order` sort last, stable by insertion
order of the matches") is not a guarantee of the program: the source feeds
`_resolve_by_priority` a Python `set`, whose iteration order is hash-based
and unspecified (not insertion order), and on a tie the resolver's answer
depends on that order. Here two enumerations of the same two-element set,
with both categories absent from the fallback priority order (both keys
`10000`), resolve to different categories. -/
theorem resolve_tie_order_dependent :
    List.Perm [chars "alpha", chars "beta"] [chars "beta", chars "alpha"] ∧
    chars "alpha" ∉ fallbackCatalog.priority_order ∧
    chars "beta" ∉ fallbackCatalog.priority_order ∧
    _resolve_by_priority fallbackCatalog.priority_order
      [chars "alpha", chars "beta"] = some (chars "alpha") ∧
    _resolve_by_priority fallbackCatalog.priority_order
      [chars "beta", chars "alpha"] = some (chars "beta") ∧
    chars "alpha" ≠ chars "beta" :=
  ⟨List.Perm.swap _ _ _, by decide, by decide, by decide, by decide,
   by decide⟩

/-- C7 amended. When no strong rule fires and the matched-category set has
a unique `orderKey` minimizer `m` (`orderKey` is the index in
`priority_order`, `10000` when absent, so absent categories sort after all
present ones), the engine returns `m`; moreover `_resolve_by_priority`
returns `m` for EVERY enumeration of the matched set, so the guarantee
does not depend on the hash-based order in which Python iterates the set.
On ties (two or more matches sharing the minimal key, e.g. both absent
from `priority_order`) the result is enumeration-order-dependent and hence
not a function of the match set: see the counterexample. -/
theorem keyword_priority_unique_min (cat : Catalog) (record : Record)
    (ocr_texts filenames : Option (List Str)) (model_pred : Option Str)
    (m : Str)
    (h1 : categorize_from_comment (_norm (effectiveComment record)) = none)
    (h2 : (ocr_texts.getD []).findSome? categorize_from_ocr = none)
    (h3 : (filenames.getD []).findSome? categorize_from_filename = none)
    (hmem : m ∈ (_keyword_matches cat
      (combinedOf (_norm (effectiveComment record)) ocr_texts)).2)
    (huniq : ∀ c ∈ (_keyword_matches cat
        (combinedOf (_norm (effectiveComment record)) ocr_texts)).2,
      c ≠ m → orderKey cat.priority_order m < orderKey cat.priority_order c) :
    (∀ enum, enum.Perm (_keyword_matches cat
        (combinedOf (_norm (effectiveComment record)) ocr_texts)).2 →
      _resolve_by_priority cat.priority_order enum = some m) ∧
    (categorize_record_with_meta cat record ocr_texts filenames model_pred).1 =
      m ∧
    (∀ c ∈ (_keyword_matches cat
        (combinedOf (_norm (effectiveComment record)) ocr_texts)).2,
      orderKey cat.priority_order m ≤ orderKey cat.priority_order c) ∧
    (∀ c ∈ (_keyword_matches cat
        (combinedOf (_norm (effectiveComment record)) ocr_texts)).2,
      c ∉ cat.priority_order → orderKey cat.priority_order c = 10000) := by
  have hne : (_keyword_matches cat
      (combinedOf (_norm (effectiveComment record)) ocr_texts)).2 ≠ [] :=
    List.ne_nil_of_mem hmem
  have hall : ∀ enum, enum.Perm (_keyword_matches cat
      (combinedOf (_norm (effectiveComment record)) ocr_texts)).2 →
      _resolve_by_priority cat.priority_order enum = some m :=
    fun enum hp => resolve_unique_min hp hmem huniq
  have hm := hall _ (List.Perm.refl _)
  have hmne : m ≠ [] := (keyword_matches_cats m hmem).1
  refine ⟨hall, ?_, ?_, fun c _ hc => orderKey_of_not_mem hc⟩
  · unfold categorize_record_with_meta
    dsimp only
    rw [h1]
    dsimp only
    rw [h2]
    dsimp only
    rw [h3]
    dsimp only
    rw [if_pos (by simpa [List.isEmpty_iff] using hne)]
    dsimp only
    rw [hm]
    dsimp only
    rw [if_neg (by simpa [List.isEmpty_iff] using hmne)]
  · intro c hc
    by_cases heq : c = m
    · rw [heq]
    · exact le_of_lt (huniq c hc heq)

/-- A two-entry keyword catalog used to witness the amended C7: it maps
`zebra` to `ui_ux_issues` and `yak` to `functional_errors`, and
`priority_order` ranks `functional_errors` (index 0) strictly before
`ui_ux_issues`, so the match set has a unique minimizer. -/
def c7Catalog : Catalog :=
  { priority_order := fallbackCatalog.priority_order,
    keyword_map := [(chars "zebra", catUiUx), (chars "yak", catFunctional)],
    regex_map := [],
    struct_patterns := fallbackCatalog.struct_patterns }

/-- Witness for the amended C7: the comment `"zebra yak hello"` matches
both `ui_ux_issues` and `functional_errors`; `functional_errors` is the
unique priority minimizer, so the engine returns it and every enumeration
of the match set resolves to it. -/
theorem keyword_priority_unique_min_witness :
    catFunctional ∈ (_keyword_matches c7Catalog (combinedOf (_norm
      (effectiveComment { comment := some (chars "zebra yak hello") }))
      none)).2 ∧
    ((∀ enum, enum.Perm (_keyword_matches c7Catalog
        (combinedOf (_norm (effectiveComment
          { comment := some (chars "zebra yak hello") })) none)).2 →
      _resolve_by_priority c7Catalog.priority_order enum =
        some catFunctional) ∧
    (categorize_record_with_meta c7Catalog
      { comment := some (chars "zebra yak hello") } none none none).1 =
      catFunctional ∧
    (∀ c ∈ (_keyword_matches c7Catalog
        (combinedOf (_norm (effectiveComment
          { comment := some (chars "zebra yak hello") })) none)).2,
      orderKey c7Catalog.priority_order catFunctional ≤
        orderKey c7Catalog.priority_order c) ∧
    (∀ c ∈ (_keyword_matches c7Catalog
        (combinedOf (_norm (effectiveComment
          { comment := some (chars "zebra yak hello") })) none)).2,
      c ∉ c7Catalog.priority_order →
        orderKey c7Catalog.priority_order c = 10000)) :=
  ⟨by decide,
   keyword_priority_unique_min c7Catalog
     { comment := some (chars "zebra yak hello") } none none none
     catFunctional (by decide) (by decide) (by decide) (by decide)
     (by decide)⟩

/-- C9. The engine is a pure function of the catalog and the four inputs:
two invocations on identical inputs return the identical
(category, confidence, reason) triple. -/
theorem categorize_deterministic (cat1 cat2 : Catalog) (r1 r2 : Record)
    (o1 o2 f1 f2 : Option (List Str)) (m1 m2 : Option Str)
    (hcat : cat1 = cat2) (hr : r1 = r2) (ho : o1 = o2) (hf : f1 = f2)
    (hm : m1 = m2) :
    categorize_record_with_meta cat1 r1 o1 f1 m1 =
      categorize_record_with_meta cat2 r2 o2 f2 m2 := by
  subst hcat hr ho hf hm
  rfl

/-- Witness for C9 at a concrete duplicated input. -/
theorem categorize_deterministic_witness :
    categorize_record_with_meta fallbackCatalog
      { comment := some (chars "App is very slow") } (some []) (some []) none =
    categorize_record_with_meta fallbackCatalog
      { comment := some (chars "App is very slow") } (some []) (some []) none :=
  categorize_deterministic fallbackCatalog fallbackCatalog _ _ _ _ _ _ _ _
    rfl rfl rfl rfl rfl

/-- C10. A record whose `comment_translated` field is present but empty
behaves exactly as if the field were absent, both for the categorizer and
for the unclear gate: the raw comment is the effective comment either
way. -/
theorem empty_translated_equiv_absent (cat : Catalog) (c lo : Option Str)
    (ocr_texts filenames : Option (List Str)) (model_pred : Option Str) :
    categorize_record_with_meta cat
      { comment := c, comment_translated := some [], logFile := lo }
      ocr_texts filenames model_pred =
    categorize_record_with_meta cat
      { comment := c, comment_translated := none, logFile := lo }
      ocr_texts filenames model_pred ∧
    allow_unclear_label cat
      { comment := c, comment_translated := some [], logFile := lo }
      ocr_texts filenames =
    allow_unclear_label cat
      { comment := c, comment_translated := none, logFile := lo }
      ocr_texts filenames :=
  ⟨rfl, rfl⟩
